import Mathlib

/-!
Shallow embedding of the response-normalization and request-building logic of
the SebGuru Assistant editor extension (src/extension.js, the `LLMClient`
class and the `extractTextContent` helper).

Modelling conventions:
* A JSON-decoded value (the `response.data` produced by the HTTP layer) is
  modelled by `JsValue`.  JSON numbers are modelled as integers: none of the
  verified properties involve fractional response values.  Object fields are
  kept in insertion order, as JavaScript `for (const key in obj)` and
  `Object.keys` enumerate them for non-integer-like keys.
* `undefined` is modelled as `Option.none` at access sites (a missing field),
  while JSON `null` is `JsValue.null`.  Property access on `null`/`undefined`
  throws a TypeError in JavaScript; the embedding makes those throws explicit.
* JavaScript truthiness is modelled by `truthy`.
-/

mutual
inductive JsValue where
  | null : JsValue
  | bool (b : Bool) : JsValue
  | num (n : Int) : JsValue
  | str (s : String) : JsValue
  | arr (elems : JsList) : JsValue
  | obj (fields : JsFields) : JsValue

inductive JsList where
  | nil : JsList
  | cons (hd : JsValue) (tl : JsList) : JsList

inductive JsFields where
  | nil : JsFields
  | cons (key : String) (val : JsValue) (tl : JsFields) : JsFields
end

/-- Convert a Lean list of values into the embedded JSON array payload. -/
def jsListOf : List JsValue → JsList
  | [] => .nil
  | x :: xs => .cons x (jsListOf xs)

/-- Convert a Lean association list into embedded JSON object fields. -/
def jsFieldsOf : List (String × JsValue) → JsFields
  | [] => .nil
  | (k, v) :: xs => .cons k v (jsFieldsOf xs)

/-- Build a JSON object payload from an association list (insertion order). -/
def jsObj (l : List (String × JsValue)) : JsValue := .obj (jsFieldsOf l)

/-- Build a JSON array payload from a list. -/
def jsArr (l : List JsValue) : JsValue := .arr (jsListOf l)

def JsList.toList : JsList → List JsValue
  | .nil => []
  | .cons x tl => x :: tl.toList

def JsFields.toList : JsFields → List (String × JsValue)
  | .nil => []
  | .cons k v tl => (k, v) :: tl.toList

def JsList.len : JsList → Nat
  | .nil => 0
  | .cons _ tl => tl.len + 1

def JsFields.len : JsFields → Nat
  | .nil => 0
  | .cons _ _ tl => tl.len + 1

/-- First field with the given key, as JavaScript property lookup on a
JSON-decoded object (parsed objects carry no duplicate keys). -/
def jlookupF : JsFields → String → Option JsValue
  | .nil, _ => none
  | .cons k v tl, key => if k = key then some v else jlookupF tl key

/-- JavaScript truthiness of a JSON value: `null`, `false`, `0` and `""` are
falsy; every array and object (including empty ones) is truthy. -/
def truthy : JsValue → Bool
  | .null => false
  | .bool b => b
  | .num n => decide (n ≠ 0)
  | .str s => decide (s ≠ "")
  | .arr _ => true
  | .obj _ => true

/-- Truthiness of a possibly-undefined value (`undefined` is falsy). -/
def truthyO : Option JsValue → Bool
  | none => false
  | some v => truthy v

/-- `v === null`. -/
def isNull : JsValue → Bool
  | .null => true
  | _ => false

/-- `typeof v === 'string'`. -/
def isStr : JsValue → Bool
  | .str _ => true
  | _ => false

/-- `typeof v === 'object'` — true for objects, arrays and `null`. -/
def typeofIsObject : JsValue → Bool
  | .null => true
  | .obj _ => true
  | .arr _ => true
  | _ => false

def typeofIsObjectO : Option JsValue → Bool
  | none => false
  | some v => typeofIsObject v

/-- Property read `v[k]` for the property names the source dereferences.
Objects use their own fields; arrays and strings expose `length`; property
reads on numbers and booleans yield `undefined` (primitive boxing). -/
def getField : JsValue → String → Option JsValue
  | .obj fs, k => jlookupF fs k
  | .arr xs, k => if k = "length" then some (.num xs.len) else none
  | .str s, k => if k = "length" then some (.num s.length) else none
  | _, _ => none

/-- Property read through a possibly-undefined base.  Only used in the
embedding under guards that make the base defined and non-null, matching the
short-circuit guards of the source. -/
def getFieldO : Option JsValue → String → Option JsValue
  | none, _ => none
  | some v, k => getField v k

/-- Index read `v[0]`, used for `choices[0]`. -/
def indexZero : JsValue → Option JsValue
  | .arr (.cons x _) => some x
  | .arr .nil => none
  | .str s => if s = "" then none else some (.str (s.take 1))
  | .obj fs => jlookupF fs "0"
  | _ => none

def indexZeroO : Option JsValue → Option JsValue
  | none => none
  | some v => indexZero v

/-- JavaScript `ToNumber` on a string restricted to optionally-signed integer
literals; blank strings convert to 0, anything else to NaN (`none`).
Fractional and exponent literals are outside the integer number model. -/
def jsStrToInt (s : String) : Option Int :=
  let t := s.trim
  if t = "" then some 0
  else if t.startsWith "-" then (t.drop 1).toNat?.map (fun n => -(n : Int))
  else t.toNat?.map (fun n => (n : Int))

/-- The test `v.length > 0` of the source (`response.data.choices.length > 0`):
arrays and strings report their length; objects report their own `length`
field coerced by `>`; `undefined > 0` is false.  Array- and object-valued
`length` fields are treated as non-numeric (not coerced further). -/
def lengthGtZero : JsValue → Bool
  | .arr xs => decide (0 < xs.len)
  | .str s => decide (0 < s.length)
  | .obj fs =>
    match jlookupF fs "length" with
    | some (.num n) => decide (0 < n)
    | some (.bool b) => b
    | some (.str s) =>
      match jsStrToInt s with
      | some n => decide (0 < n)
      | none => false
    | _ => false
  | _ => false

def lengthGtZeroO : Option JsValue → Bool
  | none => false
  | some v => lengthGtZero v

/-! ### JSON.stringify -/

/-- Hexadecimal digit for control-character escapes. -/
def hexDigit (n : Nat) : Char :=
  if n < 10 then Char.ofNat (48 + n) else Char.ofNat (87 + n)

/-- Escape one character as JSON.stringify does. -/
def escapeChar (c : Char) : String :=
  if c = '"' then "\\\""
  else if c = '\\' then "\\\\"
  else if c = '\n' then "\\n"
  else if c = '\r' then "\\r"
  else if c = '\t' then "\\t"
  else if c.toNat = 8 then "\\b"
  else if c.toNat = 12 then "\\f"
  else if c.toNat < 32 then
    "\\u00" ++ String.mk [hexDigit (c.toNat / 16), hexDigit (c.toNat % 16)]
  else String.mk [c]

/-- Quote a string as a JSON string literal. -/
def jsonQuote (s : String) : String :=
  "\"" ++ String.join (s.data.map escapeChar) ++ "\""

/-- Decimal digits of a natural number; the fuel argument is always ample. -/
def natDecAux : Nat → Nat → List Char
  | 0, _ => []
  | fuel + 1, n =>
    if n < 10 then [Char.ofNat (48 + n)]
    else natDecAux fuel (n / 10) ++ [Char.ofNat (48 + n % 10)]

/-- Decimal rendering of a natural number, as JavaScript renders integers. -/
def natDec (n : Nat) : String := String.mk (natDecAux (n + 1) n)

/-- Decimal rendering of an integer, as JavaScript renders integer numbers. -/
def intDec (n : Int) : String :=
  if n < 0 then "-" ++ natDec (-n).toNat else natDec n.toNat

mutual
/-- `JSON.stringify` on JSON-decoded values. -/
def stringify : JsValue → String
  | .null => "null"
  | .bool b => if b then "true" else "false"
  | .num n => intDec n
  | .str s => jsonQuote s
  | .arr xs => "[" ++ stringifyList xs ++ "]"
  | .obj fs => "\x7b" ++ stringifyFields fs ++ "\x7d"

def stringifyList : JsList → String
  | .nil => ""
  | .cons x .nil => stringify x
  | .cons x (.cons y tl) => stringify x ++ "," ++ stringifyList (.cons y tl)

def stringifyFields : JsFields → String
  | .nil => ""
  | .cons k v .nil => jsonQuote k ++ ":" ++ stringify v
  | .cons k v (.cons k2 v2 tl) =>
    jsonQuote k ++ ":" ++ stringify v ++ "," ++ stringifyFields (.cons k2 v2 tl)
end

/-! ### extractTextContent (src/extension.js lines 1056-1100)

The source walks arrays and objects recursively with a depth counter, first
probing eight named fields (`content`, `text`, `message`, `response`,
`output`, `result`, `answer`, `generated_text`) and then every own field, and
treats a falsy result (`null` or `""`) as "not found".  The fixed eight-name
loop is unrolled into a chain of `tryField` probes so that the whole
definition is structurally recursive (hence kernel-computable). -/

/-- Left-biased choice: keep the first found result (`if (text) return text`
with `none` standing for "loop continues"). -/
def orOpt (a b : Option String) : Option String :=
  match a with
  | some s => some s
  | none => b

mutual
/-- `extractTextContent(obj, depth)` from the source. -/
def extractTextContent : JsValue → Nat → Option String
  | v, depth =>
    -- if (depth > 5) return null
    if 5 < depth then none
    else
      match v with
      -- if (obj == null) return null
      | .null => none
      -- if (typeof obj === 'string') return obj
      | .str s => some s
      -- if (Array.isArray(obj)) { for (const item of obj) ... }
      | .arr items => extractList items depth
      -- if (typeof obj === 'object') { named-field loop, then all-field loop }
      | .obj fs =>
        match orOpt (tryField fs "content" depth)
              (orOpt (tryField fs "text" depth)
              (orOpt (tryField fs "message" depth)
              (orOpt (tryField fs "response" depth)
              (orOpt (tryField fs "output" depth)
              (orOpt (tryField fs "result" depth)
              (orOpt (tryField fs "answer" depth)
                     (tryField fs "generated_text" depth))))))) with
        | some t => some t
        | none => extractAll fs depth
      -- numbers and booleans fall through every branch: return null
      | .bool _ => none
      | .num _ => none

/-- The array loop: `const text = extractTextContent(item, depth + 1);
if (text) return text;` — a falsy (empty) string does not stop the loop. -/
def extractList : JsList → Nat → Option String
  | .nil, _ => none
  | .cons x tl, depth =>
    match extractTextContent x (depth + 1) with
    | some t => if t = "" then extractList tl depth else some t
    | none => extractList tl depth

/-- One probe of the named-field loop body: look the field up; if truthy and
a string return it, otherwise recurse into it and keep a truthy result. -/
def tryField : JsFields → String → Nat → Option String
  | .nil, _, _ => none
  | .cons k v tl, name, depth =>
    if k = name then
      -- if (obj[field]) { ... }
      if truthy v then
        match v with
        | .str s => some s
        | _ =>
          match extractTextContent v (depth + 1) with
          | some t => if t = "" then none else some t
          | none => none
      else none
    else tryField tl name depth

/-- The all-fields fallback loop: `for (const key in obj)` with
`hasOwnProperty`, recursing into every value and keeping a truthy result. -/
def extractAll : JsFields → Nat → Option String
  | .nil, _ => none
  | .cons _ v tl, depth =>
    match extractTextContent v (depth + 1) with
    | some t => if t = "" then extractAll tl depth else some t
    | none => extractAll tl depth
end

/-! ### The response normalizer (src/extension.js lines 1275-1334)

The body of the inner `try` of `makeLocalRequest` after the POST resolves:
the priority chain of shape checks, then the fallback loops, the bounded
recursive scan, the raw-format fallback, and the final throw.  `Except.error`
models a throw inside the `try`; `Except.ok none` models `return undefined`. -/

inductive NormErr where
  /-- A TypeError from dereferencing `null`/`undefined`
  (e.g. `response.data.choices` when the payload is `null`). -/
  | typeError : NormErr
  /-- `throw new Error('Unexpected response format from local LLM')`. -/
  | unexpectedFormat : NormErr
deriving DecidableEq, Repr

/-- Marker prefixed to the raw-format fallback string. -/
def rawMarker : String := "AI response (raw format): "

/-- The loop `for (const key of ks) if (data[key] && typeof data[key] ===
'string') return data[key];` over a base value. -/
def firstStrField (v : JsValue) : List String → Option String
  | [] => none
  | k :: rest =>
    match getField v k with
    | some (.str s) => if s = "" then firstStrField v rest else some s
    | _ => firstStrField v rest

def firstStrFieldO (v : Option JsValue) (ks : List String) : Option String :=
  match v with
  | none => none
  | some w => firstStrField w ks

/-- `Object.keys(v).length` for the values that reach the fallback block. -/
def objKeysLen : JsValue → Nat
  | .obj fs => fs.len
  | .arr xs => xs.len
  | .str s => s.length
  | _ => 0

/-- The raw-fallback tail of the fallback block (source lines 1312-1329):
`Object.keys` gate, `JSON.stringify` gate, the bounded recursive scan, the
raw-format diagnostic string, and the final `throw`. -/
def fallbackRaw (data : JsValue) : Except NormErr (Option JsValue) :=
  -- if (Object.keys(response.data).length > 0)
  if 0 < objKeysLen data then
    -- const jsonString = JSON.stringify(response.data); if (jsonString.length > 2)
    if 2 < (stringify data).length then
      match extractTextContent data 0 with
      | some t =>
        -- if (textContent) return textContent
        if t = "" then .ok (some (.str (rawMarker ++ stringify data)))
        else .ok (some (.str t))
      | none => .ok (some (.str (rawMarker ++ stringify data)))
    else .error .unexpectedFormat
  else .error .unexpectedFormat

/-- The `message` sub-object probe of the fallback block (source lines
1303-1310), falling through to `fallbackRaw`. -/
def fallbackMsg (data : JsValue) : Except NormErr (Option JsValue) :=
  -- if (response.data.message && typeof response.data.message === 'object')
  match (if truthyO (getField data "message") && typeofIsObjectO (getField data "message") then
           firstStrFieldO (getField data "message") ["content", "text", "value"]
         else none) with
  | some s => .ok (some (.str s))
  | none => fallbackRaw data

/-- The fallback block of the normalizer (source lines 1294-1329): named
top-level string fields, then the `message` probe and the raw tail. -/
def fallbackExtract (data : JsValue) : Except NormErr (Option JsValue) :=
  -- if (response.data && typeof response.data === 'object') { ... }
  if truthy data && typeofIsObject data then
    match firstStrField data ["content", "text", "result", "answer", "generated_text"] with
    | some s => .ok (some (.str s))
    | none => fallbackMsg data
  else .error .unexpectedFormat

/-- The response normalizer: the full `try` body interpreting
`response.data`.  A `.error` is a throw (caught further out by
`makeLocalRequest`); `.ok r` is `return r`, with `r = none` for
`return undefined`. -/
def normalizeResponse (data : JsValue) : Except NormErr (Option JsValue) :=
  -- `response.data.choices` itself throws a TypeError on a null payload
  if isNull data then .error .typeError
  else
    -- if (response.data.choices && response.data.choices.length > 0)
    if truthyO (getField data "choices") && lengthGtZeroO (getField data "choices") then
      match indexZeroO (getField data "choices") with
      -- `response.data.choices[0].message` throws if `choices[0]` is undefined
      | none => .error .typeError
      | some c0 =>
        if isNull c0 then .error .typeError
        else
          -- if (response.data.choices[0].message) return ...message.content
          if truthyO (getField c0 "message") then
            .ok (getFieldO (getField c0 "message") "content")
          -- else if (response.data.choices[0].text) return it
          else if truthyO (getField c0 "text") then .ok (getField c0 "text")
          -- neither matched: fall out of the chain into the fallback block
          else fallbackExtract data
    -- else if (response.data.message && response.data.message.content)
    else if truthyO (getField data "message") &&
            truthyO (getFieldO (getField data "message") "content") then
      .ok (getFieldO (getField data "message") "content")
    -- else if (response.data.response)
    else if truthyO (getField data "response") then .ok (getField data "response")
    -- else if (response.data.output)
    else if truthyO (getField data "output") then .ok (getField data "output")
    else
      match data with
      -- else if (typeof response.data === 'string') return response.data
      | .str _ => .ok (some data)
      | _ => fallbackExtract data

/-- The fixed string `makeLocalRequest` substitutes for any error raised
while interpreting the response body (source line 1333). -/
def parseErrorMsg : String :=
  "I encountered an error processing the response. Please try again or check the server logs."

/-- `makeLocalRequest` after the POST has resolved: the inner `try/catch`
around the normalizer — a throw is caught and replaced by `parseErrorMsg`. -/
def handleLocalResponse (data : JsValue) : Option JsValue :=
  match normalizeResponse data with
  | .ok r => r
  | .error _ => some (.str parseErrorMsg)

/-! ### Leaf-depth predicates used to state the bounded-scan properties -/

mutual
/-- Some string leaf (possibly empty) occurs in `v` at nesting depth `≤ n`. -/
def hasLeafLe : JsValue → Nat → Bool
  | .str _, _ => true
  | .arr xs, n =>
    match n with
    | 0 => false
    | m + 1 => hasLeafLeL xs m
  | .obj fs, n =>
    match n with
    | 0 => false
    | m + 1 => hasLeafLeF fs m
  | _, _ => false

def hasLeafLeL : JsList → Nat → Bool
  | .nil, _ => false
  | .cons x tl, m => hasLeafLe x m || hasLeafLeL tl m

def hasLeafLeF : JsFields → Nat → Bool
  | .nil, _ => false
  | .cons _ v tl, m => hasLeafLe v m || hasLeafLeF tl m
end

mutual
/-- Some non-empty string leaf occurs in `v` at nesting depth `≤ n`. -/
def hasNELeafLe : JsValue → Nat → Bool
  | .str s, _ => decide (s ≠ "")
  | .arr xs, n =>
    match n with
    | 0 => false
    | m + 1 => hasNELeafLeL xs m
  | .obj fs, n =>
    match n with
    | 0 => false
    | m + 1 => hasNELeafLeF fs m
  | _, _ => false

def hasNELeafLeL : JsList → Nat → Bool
  | .nil, _ => false
  | .cons x tl, m => hasNELeafLe x m || hasNELeafLeL tl m

def hasNELeafLeF : JsFields → Nat → Bool
  | .nil, _ => false
  | .cons _ v tl, m => hasNELeafLe v m || hasNELeafLeF tl m
end

mutual
/-- `v` contains no string anywhere (no string-typed leaf at any depth). -/
def noStrLeaf : JsValue → Bool
  | .str _ => false
  | .arr xs => noStrLeafL xs
  | .obj fs => noStrLeafF fs
  | _ => true

def noStrLeafL : JsList → Bool
  | .nil => true
  | .cons x tl => noStrLeaf x && noStrLeafL tl

def noStrLeafF : JsFields → Bool
  | .nil => true
  | .cons _ v tl => noStrLeaf v && noStrLeafF tl
end

/-! ### Characterizations of the normalizer used in the claim statements -/

/-- The `choices` check succeeded but `choices[0]` is `undefined` or `null`,
so `choices[0].message` throws a TypeError. -/
def badChoicesIndex (v : JsValue) : Bool :=
  truthyO (getField v "choices") && lengthGtZeroO (getField v "choices") &&
    (match indexZeroO (getField v "choices") with
     | none => true
     | some c0 => isNull c0)

/-- Payloads on which the normalizer throws (is caught by the outer catch):
`null`, numbers, booleans, the empty object, the empty array, and payloads
whose truthy `choices` of positive length has no dereferenceable first
element. -/
def normFails : JsValue → Bool
  | .null => true
  | .num _ => true
  | .bool _ => true
  | .arr .nil => true
  | .obj .nil => true
  | v => badChoicesIndex v

/-- The first branch of the priority chain was entered with a truthy
`choices[0].message`, so `choices[0].message.content` is returned without
any check on it. -/
def choicesMsgPath (v : JsValue) : Bool :=
  truthyO (getField v "choices") && lengthGtZeroO (getField v "choices") &&
    (match indexZeroO (getField v "choices") with
     | none => false
     | some c0 => !isNull c0 && truthyO (getField c0 "message"))

/-- `isError` as a Bool for `Except` results of the normalizer. -/
def isErrResult : Except NormErr (Option JsValue) → Bool
  | .error _ => true
  | .ok _ => false

/-- Whether a normalizer result is a returned string. -/
def isStrResult : Except NormErr (Option JsValue) → Bool
  | .ok (some (.str _)) => true
  | _ => false

/-- Rendering of the amended priority-order description from the claim (the
spec side of the refinement): the known-shape checks in source order, where a
check only "matches" on truthy values, and a `choices` entry with neither a
truthy `message` nor a truthy `text` falls through to the scan (`none`).
Returns `some r` when one of the shape checks matches and produces `r`. -/
def prioritySpec (data : JsValue) : Option (Option JsValue) :=
  if isNull data then none
  else
    if truthyO (getField data "choices") && lengthGtZeroO (getField data "choices") then
      match indexZeroO (getField data "choices") with
      | none => none
      | some c0 =>
        if isNull c0 then none
        else
          if truthyO (getField c0 "message") then
            some (getFieldO (getField c0 "message") "content")
          else if truthyO (getField c0 "text") then some (getField c0 "text")
          else none
    else if truthyO (getField data "message") &&
            truthyO (getFieldO (getField data "message") "content") then
      some (getFieldO (getField data "message") "content")
    else if truthyO (getField data "response") then some (getField data "response")
    else if truthyO (getField data "output") then some (getField data "output")
    else none

/-! ### The outbound request builder (src/extension.js lines 1167-1258)

`makeRequest` dispatches on `useLocalLLM`; `makeLocalRequest` chooses one of
three JSON body shapes from the configured `localLLMPath`;
`makeSebGuruRequest` checks the API key before any POST.  Temperatures are
JavaScript numbers; they are modelled as rationals so the default `0.7` is
representable. -/

structure ReqOptions where
  systemPrompt : Option String
  maxTokens : Option Int
  temperature : Option Rat

def truthyStrO : Option String → Bool
  | none => false
  | some s => decide (s ≠ "")

def truthyIntO : Option Int → Bool
  | none => false
  | some n => decide (n ≠ 0)

def truthyRatO : Option Rat → Bool
  | none => false
  | some q => decide (q ≠ 0)

/-- `a || d` for an optional string against a string default. -/
def jsOrStr (a : Option String) (d : String) : String :=
  match a with
  | some s => if s = "" then d else s
  | none => d

/-- `a || d` for optional integers (the result may itself be absent). -/
def jsOrInt (a : Option Int) (d : Option Int) : Option Int :=
  if truthyIntO a then a else d

def defaultSystemPrompt : String := "You are a helpful AI coding assistant."

structure ChatMsg where
  role : String
  content : String
deriving DecidableEq, Repr

/-- Body for the Ollama `/api/generate` format. -/
structure GenBody where
  model : String
  prompt : String
  system : String
  stream : Bool
  num_predict : Option Int
  temperature : Option Rat
deriving DecidableEq, Repr

/-- The nested `options` object of the Ollama `/api/chat` format. -/
structure ChatBodyOptions where
  num_predict : Option Int
  temperature : Option Rat
deriving DecidableEq, Repr

/-- Body for the Ollama `/api/chat` format. -/
structure ChatBody where
  model : String
  messages : List ChatMsg
  stream : Bool
  options : Option ChatBodyOptions
deriving DecidableEq, Repr

/-- Body for the OpenAI-compatible chat-completions format. -/
structure OpenAIBody where
  model : String
  messages : List ChatMsg
  max_tokens : Option Int
  temperature : Rat
deriving DecidableEq, Repr

inductive LocalBody where
  | gen (b : GenBody)
  | chat (b : ChatBody)
  | openai (b : OpenAIBody)
deriving DecidableEq, Repr

/-- Numeric tag of the selected shape (0 generate, 1 chat, 2 chat-completions). -/
def shapeTag : LocalBody → Nat
  | .gen _ => 0
  | .chat _ => 1
  | .openai _ => 2

def mkMessages (systemContent userContent : String) : List ChatMsg :=
  [⟨"system", systemContent⟩, ⟨"user", userContent⟩]

/-- The payload construction of `makeLocalRequest` (source lines 1189-1244),
keyed on the configured `localLLMPath`. -/
def buildLocalPayload (localLLMPath model : String) (clientMaxTokens : Option Int)
    (prompt : String) (o : ReqOptions) : LocalBody :=
  if localLLMPath = "/api/generate" then
    .gen
      { model := model
        prompt := prompt
        system := jsOrStr o.systemPrompt defaultSystemPrompt
        stream := false
        -- if (options.temperature || options.maxTokens) { if (options.maxTokens
        -- || this.maxTokens) payload.num_predict = options.maxTokens || this.maxTokens; ... }
        num_predict :=
          if truthyRatO o.temperature || truthyIntO o.maxTokens then
            if truthyIntO o.maxTokens || truthyIntO clientMaxTokens then
              jsOrInt o.maxTokens clientMaxTokens
            else none
          else none
        temperature :=
          if truthyRatO o.temperature || truthyIntO o.maxTokens then
            if truthyRatO o.temperature then o.temperature else none
          else none }
  else if localLLMPath = "/api/chat" then
    .chat
      { model := model
        messages := mkMessages (jsOrStr o.systemPrompt defaultSystemPrompt) prompt
        stream := false
        options :=
          if truthyRatO o.temperature || truthyIntO o.maxTokens then
            some
              { num_predict :=
                  if truthyIntO o.maxTokens || truthyIntO clientMaxTokens then
                    jsOrInt o.maxTokens clientMaxTokens
                  else none
                temperature :=
                  if truthyRatO o.temperature then o.temperature else none }
          else none }
  else
    .openai
      { model := model
        messages := mkMessages (jsOrStr o.systemPrompt defaultSystemPrompt) prompt
        max_tokens := jsOrInt o.maxTokens clientMaxTokens
        temperature :=
          match o.temperature with
          | some q => if q ≠ 0 then q else 7 / 10
          | none => 7 / 10 }

/-- The message thrown by `makeSebGuruRequest` when no API key is set. -/
def apiKeyErrMsg : String :=
  "SebGuru API key not set. Please set your API key in the extension settings or switch to using a local LLM."

/-- Outcome of `makeSebGuruRequest` up to the HTTP boundary: either the
fail-fast configuration error, or the outbound POST it would issue. -/
inductive RemoteStep where
  | configError (msg : String)
  | post (url : String) (bearer : String) (body : OpenAIBody)
deriving DecidableEq, Repr

/-- `makeSebGuruRequest` (source lines 1347-1372): the API-key guard comes
before any POST is issued. -/
def makeSebGuruRequest (apiHostname apiVersion : String) (apiKey : Option String)
    (model : String) (clientMaxTokens : Option Int) (prompt : String)
    (o : ReqOptions) : RemoteStep :=
  -- if (!this.apiKey) throw new Error('SebGuru API key not set. ...')
  if !truthyStrO apiKey then .configError apiKeyErrMsg
  else
    .post ("https://" ++ apiHostname ++ "/" ++ apiVersion ++ "/chat/completions")
      (apiKey.getD "")
      { model := model
        messages := mkMessages (jsOrStr o.systemPrompt defaultSystemPrompt) prompt
        max_tokens := jsOrInt o.maxTokens clientMaxTokens
        temperature :=
          match o.temperature with
          | some q => if q ≠ 0 then q else 7 / 10
          | none => 7 / 10 }

/-- The action `makeRequest` takes: a POST to the local server with one of
the three body shapes, or the remote path. -/
inductive RequestAction where
  | localPost (body : LocalBody)
  | remote (step : RemoteStep)
deriving DecidableEq, Repr

/-- `makeRequest` (source lines 1167-1173): dispatch on `useLocalLLM`. -/
def makeRequest (useLocalLLM : Bool) (localLLMPath : String)
    (apiHostname apiVersion : String) (apiKey : Option String) (model : String)
    (clientMaxTokens : Option Int) (prompt : String) (o : ReqOptions) : RequestAction :=
  if useLocalLLM then
    .localPost (buildLocalPayload localLLMPath model clientMaxTokens prompt o)
  else
    .remote (makeSebGuruRequest apiHostname apiVersion apiKey model clientMaxTokens prompt o)

/-- The unrolled named-field probe chain of the object branch of
`extractTextContent`, as a standalone definition for reasoning. -/
def namedChain (fs : JsFields) (d : Nat) : Option String :=
  orOpt (tryField fs "content" d)
    (orOpt (tryField fs "text" d)
    (orOpt (tryField fs "message" d)
    (orOpt (tryField fs "response" d)
    (orOpt (tryField fs "output" d)
    (orOpt (tryField fs "result" d)
    (orOpt (tryField fs "answer" d)
           (tryField fs "generated_text" d)))))))

/-! ## Theorems

Helper lemmas about the embedded functions, followed by one theorem per
claim (with witnesses and counterexamples). -/

theorem orOpt_eq_some (a b : Option String) (s : String) :
    orOpt a b = some s ↔ a = some s ∨ (a = none ∧ b = some s) := by
  cases a <;> simp [orOpt]

theorem extract_obj_eq (fs : JsFields) (d : Nat) (h : ¬ 5 < d) :
    extractTextContent (.obj fs) d =
      match namedChain fs d with
      | some t => some t
      | none => extractAll fs d := by
  simp [extractTextContent, namedChain, h]

theorem extract_depth_gt (v : JsValue) (d : Nat) (hd : 5 < d) :
    extractTextContent v d = none := by
  cases v <;> simp [extractTextContent, hd]

theorem extractList_ne_empty : (xs : JsList) → (d : Nat) → (t : String) →
    extractList xs d = some t → t ≠ ""
  | .nil, d, t, h => by simp [extractList] at h
  | .cons x tl, d, t, h => by
    simp only [extractList] at h
    split at h
    next u heq =>
      split at h
      next hu => exact extractList_ne_empty tl d t h
      next hu =>
        injection h with h2
        exact h2 ▸ hu
    next heq => exact extractList_ne_empty tl d t h

theorem tryField_ne_empty : (fs : JsFields) → (name : String) → (d : Nat) → (t : String) →
    tryField fs name d = some t → t ≠ ""
  | .nil, name, d, t, h => by simp [tryField] at h
  | .cons k v tl, name, d, t, h => by
    simp only [tryField] at h
    split at h
    next hk =>
      split at h
      next hv =>
        split at h
        next v2 s =>
          injection h with h2
          have hs : s ≠ "" := by simpa [truthy] using hv
          exact h2 ▸ hs
        next =>
          split at h
          next u heq2 =>
            split at h
            next hu => exact absurd h (by simp)
            next hu =>
              injection h with h2
              exact h2 ▸ hu
          next heq2 => exact absurd h (by simp)
      next hv => exact absurd h (by simp)
    next hk => exact tryField_ne_empty tl name d t h

theorem extractAll_ne_empty : (fs : JsFields) → (d : Nat) → (t : String) →
    extractAll fs d = some t → t ≠ ""
  | .nil, d, t, h => by simp [extractAll] at h
  | .cons k v tl, d, t, h => by
    simp only [extractAll] at h
    split at h
    next u heq =>
      split at h
      next hu => exact extractAll_ne_empty tl d t h
      next hu =>
        injection h with h2
        exact h2 ▸ hu
    next heq => exact extractAll_ne_empty tl d t h

theorem namedChain_ne_empty (fs : JsFields) (d : Nat) (t : String)
    (h : namedChain fs d = some t) : t ≠ "" := by
  unfold namedChain at h
  rcases (orOpt_eq_some _ _ _).1 h with h | ⟨-, h⟩
  · exact tryField_ne_empty _ _ _ _ h
  rcases (orOpt_eq_some _ _ _).1 h with h | ⟨-, h⟩
  · exact tryField_ne_empty _ _ _ _ h
  rcases (orOpt_eq_some _ _ _).1 h with h | ⟨-, h⟩
  · exact tryField_ne_empty _ _ _ _ h
  rcases (orOpt_eq_some _ _ _).1 h with h | ⟨-, h⟩
  · exact tryField_ne_empty _ _ _ _ h
  rcases (orOpt_eq_some _ _ _).1 h with h | ⟨-, h⟩
  · exact tryField_ne_empty _ _ _ _ h
  rcases (orOpt_eq_some _ _ _).1 h with h | ⟨-, h⟩
  · exact tryField_ne_empty _ _ _ _ h
  rcases (orOpt_eq_some _ _ _).1 h with h | ⟨-, h⟩
  · exact tryField_ne_empty _ _ _ _ h
  · exact tryField_ne_empty _ _ _ _ h

theorem extract_some_ne_empty (v : JsValue) (d : Nat) (t : String)
    (h : extractTextContent v d = some t) (hv : v ≠ .str "") : t ≠ "" := by
  by_cases hd : 5 < d
  · rw [extract_depth_gt v d hd] at h
    exact absurd h (by simp)
  cases v with
  | null => simp [extractTextContent, hd] at h
  | bool b => simp [extractTextContent, hd] at h
  | num n => simp [extractTextContent, hd] at h
  | str s =>
    simp only [extractTextContent, if_neg hd] at h
    injection h with h2
    intro ht
    exact hv (by rw [h2, ht])
  | arr xs =>
    simp only [extractTextContent, if_neg hd] at h
    exact extractList_ne_empty _ _ _ h
  | obj fs =>
    rw [extract_obj_eq fs d hd] at h
    cases hc : namedChain fs d with
    | some u =>
      rw [hc] at h
      injection h with h2
      exact h2 ▸ namedChain_ne_empty _ _ _ hc
    | none =>
      rw [hc] at h
      exact extractAll_ne_empty _ _ _ h

theorem jlookupF_mem : (fs : JsFields) → (k : String) → (v : JsValue) →
    jlookupF fs k = some v → (k, v) ∈ fs.toList
  | .nil, k, v, h => by simp [jlookupF] at h
  | .cons k0 v0 tl, k, v, h => by
    simp only [jlookupF] at h
    split at h
    next hk =>
      injection h with h2
      subst hk
      subst h2
      simp [JsFields.toList]
    next hk =>
      simp only [JsFields.toList, List.mem_cons]
      exact Or.inr (jlookupF_mem tl k v h)

theorem sizeOf_lt_of_memL : (xs : JsList) → (x : JsValue) →
    x ∈ xs.toList → sizeOf x < sizeOf xs
  | .nil, x, h => by simp [JsList.toList] at h
  | .cons hd tl, x, h => by
    simp only [JsList.toList, List.mem_cons] at h
    rcases h with rfl | h
    · simp only [JsList.cons.sizeOf_spec]
      omega
    · have := sizeOf_lt_of_memL tl x h
      simp only [JsList.cons.sizeOf_spec]
      omega

theorem sizeOf_lt_of_memF : (fs : JsFields) → (k : String) → (v : JsValue) →
    (k, v) ∈ fs.toList → sizeOf v < sizeOf fs
  | .nil, k, v, h => by simp [JsFields.toList] at h
  | .cons k0 v0 tl, k, v, h => by
    simp only [JsFields.toList, List.mem_cons, Prod.mk.injEq] at h
    rcases h with ⟨h1, rfl⟩ | h
    · simp only [JsFields.cons.sizeOf_spec]
      omega
    · have := sizeOf_lt_of_memF tl k v h
      simp only [JsFields.cons.sizeOf_spec]
      omega

theorem hasLeafLeL_iff : (xs : JsList) → (m : Nat) →
    (hasLeafLeL xs m = true ↔ ∃ x ∈ xs.toList, hasLeafLe x m = true)
  | .nil, m => by simp [hasLeafLeL, JsList.toList]
  | .cons x tl, m => by
    simp only [hasLeafLeL, JsList.toList, List.mem_cons, Bool.or_eq_true]
    rw [hasLeafLeL_iff tl m]
    constructor
    · rintro (h | ⟨y, hy, h⟩)
      · exact ⟨x, Or.inl rfl, h⟩
      · exact ⟨y, Or.inr hy, h⟩
    · rintro ⟨y, (rfl | hy), h⟩
      · exact Or.inl h
      · exact Or.inr ⟨y, hy, h⟩

theorem hasLeafLeF_iff : (fs : JsFields) → (m : Nat) →
    (hasLeafLeF fs m = true ↔ ∃ p ∈ fs.toList, hasLeafLe p.2 m = true)
  | .nil, m => by simp [hasLeafLeF, JsFields.toList]
  | .cons k v tl, m => by
    simp only [hasLeafLeF, JsFields.toList, List.mem_cons, Bool.or_eq_true]
    rw [hasLeafLeF_iff tl m]
    constructor
    · rintro (h | ⟨p, hp, h⟩)
      · exact ⟨(k, v), Or.inl rfl, h⟩
      · exact ⟨p, Or.inr hp, h⟩
    · rintro ⟨p, (rfl | hp), h⟩
      · exact Or.inl h
      · exact Or.inr ⟨p, hp, h⟩

theorem hasNELeafLeL_iff : (xs : JsList) → (m : Nat) →
    (hasNELeafLeL xs m = true ↔ ∃ x ∈ xs.toList, hasNELeafLe x m = true)
  | .nil, m => by simp [hasNELeafLeL, JsList.toList]
  | .cons x tl, m => by
    simp only [hasNELeafLeL, JsList.toList, List.mem_cons, Bool.or_eq_true]
    rw [hasNELeafLeL_iff tl m]
    constructor
    · rintro (h | ⟨y, hy, h⟩)
      · exact ⟨x, Or.inl rfl, h⟩
      · exact ⟨y, Or.inr hy, h⟩
    · rintro ⟨y, (rfl | hy), h⟩
      · exact Or.inl h
      · exact Or.inr ⟨y, hy, h⟩

theorem hasNELeafLeF_iff : (fs : JsFields) → (m : Nat) →
    (hasNELeafLeF fs m = true ↔ ∃ p ∈ fs.toList, hasNELeafLe p.2 m = true)
  | .nil, m => by simp [hasNELeafLeF, JsFields.toList]
  | .cons k v tl, m => by
    simp only [hasNELeafLeF, JsFields.toList, List.mem_cons, Bool.or_eq_true]
    rw [hasNELeafLeF_iff tl m]
    constructor
    · rintro (h | ⟨p, hp, h⟩)
      · exact ⟨(k, v), Or.inl rfl, h⟩
      · exact ⟨p, Or.inr hp, h⟩
    · rintro ⟨p, (rfl | hp), h⟩
      · exact Or.inl h
      · exact Or.inr ⟨p, hp, h⟩

theorem noStrLeafL_iff : (xs : JsList) →
    (noStrLeafL xs = true ↔ ∀ x ∈ xs.toList, noStrLeaf x = true)
  | .nil => by simp [noStrLeafL, JsList.toList]
  | .cons x tl => by
    simp only [noStrLeafL, JsList.toList, List.mem_cons, Bool.and_eq_true]
    rw [noStrLeafL_iff tl]
    constructor
    · rintro ⟨h1, h2⟩ y (rfl | hy)
      · exact h1
      · exact h2 y hy
    · intro h
      exact ⟨h x (Or.inl rfl), fun y hy => h y (Or.inr hy)⟩

theorem noStrLeafF_iff : (fs : JsFields) →
    (noStrLeafF fs = true ↔ ∀ p ∈ fs.toList, noStrLeaf p.2 = true)
  | .nil => by simp [noStrLeafF, JsFields.toList]
  | .cons k v tl => by
    simp only [noStrLeafF, JsFields.toList, List.mem_cons, Bool.and_eq_true]
    rw [noStrLeafF_iff tl]
    constructor
    · rintro ⟨h1, h2⟩ p (rfl | hp)
      · exact h1
      · exact h2 p hp
    · intro h
      exact ⟨h (k, v) (Or.inl rfl), fun p hp => h p (Or.inr hp)⟩

theorem noStr_no_leaf : (n : Nat) → (v : JsValue) →
    noStrLeaf v = true → hasLeafLe v n = false := by
  intro n
  induction n with
  | zero =>
    intro v h
    cases v with
    | str s => simp [noStrLeaf] at h
    | null => rfl
    | bool b => rfl
    | num k => rfl
    | arr xs => rfl
    | obj fs => rfl
  | succ m ih =>
    intro v h
    cases v with
    | str s => simp [noStrLeaf] at h
    | null => rfl
    | bool b => rfl
    | num k => rfl
    | arr xs =>
      simp only [hasLeafLe]
      by_contra hc
      rw [Bool.not_eq_false] at hc
      obtain ⟨x, hx, hlx⟩ := (hasLeafLeL_iff xs m).1 hc
      have hnx : noStrLeaf x = true :=
        (noStrLeafL_iff xs).1 (by simpa [noStrLeaf] using h) x hx
      rw [ih x hnx] at hlx
      exact absurd hlx (by simp)
    | obj fs =>
      simp only [hasLeafLe]
      by_contra hc
      rw [Bool.not_eq_false] at hc
      obtain ⟨p, hp, hlp⟩ := (hasLeafLeF_iff fs m).1 hc
      have hnp : noStrLeaf p.2 = true :=
        (noStrLeafF_iff fs).1 (by simpa [noStrLeaf] using h) p hp
      rw [ih p.2 hnp] at hlp
      exact absurd hlp (by simp)

theorem jsonQuote_len (s : String) : 2 ≤ (jsonQuote s).length := by
  unfold jsonQuote
  rw [String.length_append, String.length_append]
  have h1 : ("\"" : String).length = 1 := rfl
  omega

theorem natDecAux_len (fuel n : Nat) : 1 ≤ (natDecAux (fuel + 1) n).length := by
  simp only [natDecAux]
  split
  · simp
  · simp [List.length_append]

theorem natDec_len (n : Nat) : 1 ≤ (natDec n).length := by
  have h : (natDec n).length = (natDecAux (n + 1) n).length := rfl
  rw [h]
  exact natDecAux_len n n

theorem intDec_len (n : Int) : 1 ≤ (intDec n).length := by
  unfold intDec
  split
  · rw [String.length_append]
    have := natDec_len (-n).toNat
    omega
  · exact natDec_len n.toNat

theorem stringify_len_pos (v : JsValue) : 1 ≤ (stringify v).length := by
  cases v with
  | null => decide
  | bool b => cases b <;> decide
  | num n =>
    simp only [stringify]
    exact intDec_len n
  | str s =>
    simp only [stringify]
    have := jsonQuote_len s
    omega
  | arr xs =>
    simp only [stringify]
    rw [String.length_append, String.length_append]
    have h1 : ("[" : String).length = 1 := rfl
    omega
  | obj fs =>
    simp only [stringify]
    rw [String.length_append, String.length_append]
    have h1 : ("\x7b" : String).length = 1 := rfl
    omega

theorem stringifyFields_cons_len (k : String) (v : JsValue) (tl : JsFields) :
    1 ≤ (stringifyFields (.cons k v tl)).length := by
  cases tl with
  | nil =>
    simp only [stringifyFields]
    rw [String.length_append, String.length_append]
    have := jsonQuote_len k
    omega
  | cons k2 v2 tl2 =>
    simp only [stringifyFields]
    rw [String.length_append, String.length_append, String.length_append,
      String.length_append]
    have := jsonQuote_len k
    omega

theorem stringifyList_cons_len (x : JsValue) (tl : JsList) :
    1 ≤ (stringifyList (.cons x tl)).length := by
  cases tl with
  | nil =>
    simp only [stringifyList]
    exact stringify_len_pos x
  | cons y tl2 =>
    simp only [stringifyList]
    rw [String.length_append, String.length_append]
    have := stringify_len_pos x
    omega

theorem stringify_obj_gt_two (k : String) (v : JsValue) (tl : JsFields) :
    2 < (stringify (.obj (.cons k v tl))).length := by
  simp only [stringify]
  rw [String.length_append, String.length_append]
  have h1 : ("\x7b" : String).length = 1 := rfl
  have h2 : ("\x7d" : String).length = 1 := rfl
  have := stringifyFields_cons_len k v tl
  omega

theorem stringify_arr_gt_two (x : JsValue) (tl : JsList) :
    2 < (stringify (.arr (.cons x tl))).length := by
  simp only [stringify]
  rw [String.length_append, String.length_append]
  have h1 : ("[" : String).length = 1 := rfl
  have h2 : ("]" : String).length = 1 := rfl
  have := stringifyList_cons_len x tl
  omega

theorem rawMarker_append_ne_empty (s : String) : rawMarker ++ s ≠ "" := by
  intro h
  have hl : (rawMarker ++ s).length = 0 := by rw [h]; rfl
  rw [String.length_append] at hl
  have : rawMarker.length = 26 := rfl
  omega

theorem extractList_sound : (xs : JsList) → (d : Nat) → (s : String) →
    extractList xs d = some s →
    ∃ x ∈ xs.toList, extractTextContent x (d + 1) = some s
  | .nil, d, s, h => by simp [extractList] at h
  | .cons x tl, d, s, h => by
    simp only [extractList] at h
    split at h
    next u heq =>
      split at h
      next hu =>
        obtain ⟨y, hy, hey⟩ := extractList_sound tl d s h
        exact ⟨y, by simp only [JsList.toList, List.mem_cons]; exact Or.inr hy, hey⟩
      next hu =>
        injection h with h2
        subst h2
        exact ⟨x, by simp [JsList.toList], heq⟩
    next heq =>
      obtain ⟨y, hy, hey⟩ := extractList_sound tl d s h
      exact ⟨y, by simp only [JsList.toList, List.mem_cons]; exact Or.inr hy, hey⟩

theorem extractAll_sound : (fs : JsFields) → (d : Nat) → (s : String) →
    extractAll fs d = some s →
    ∃ p ∈ fs.toList, extractTextContent p.2 (d + 1) = some s
  | .nil, d, s, h => by simp [extractAll] at h
  | .cons k v tl, d, s, h => by
    simp only [extractAll] at h
    split at h
    next u heq =>
      split at h
      next hu =>
        obtain ⟨p, hp, hep⟩ := extractAll_sound tl d s h
        exact ⟨p, by simp only [JsFields.toList, List.mem_cons]; exact Or.inr hp, hep⟩
      next hu =>
        injection h with h2
        subst h2
        exact ⟨(k, v), by simp [JsFields.toList], heq⟩
    next heq =>
      obtain ⟨p, hp, hep⟩ := extractAll_sound tl d s h
      exact ⟨p, by simp only [JsFields.toList, List.mem_cons]; exact Or.inr hp, hep⟩

theorem tryField_sound : (fs : JsFields) → (name : String) → (d : Nat) → (s : String) →
    tryField fs name d = some s →
    ∃ w, jlookupF fs name = some w ∧ truthy w = true ∧
      (w = .str s ∨ extractTextContent w (d + 1) = some s)
  | .nil, name, d, s, h => by simp [tryField] at h
  | .cons k v tl, name, d, s, h => by
    simp only [tryField] at h
    split at h
    next hk =>
      split at h
      next hv =>
        split at h
        next v2 s2 =>
          injection h with h2
          subst h2
          exact ⟨.str s2, by simp [jlookupF, hk], hv, Or.inl rfl⟩
        next =>
          split at h
          next u heq2 =>
            split at h
            next hu => exact absurd h (by simp)
            next hu =>
              injection h with h2
              subst h2
              exact ⟨v, by simp [jlookupF, hk], hv, Or.inr heq2⟩
          next heq2 => exact absurd h (by simp)
      next hv => exact absurd h (by simp)
    next hk =>
      obtain ⟨w, hw, htw, hcw⟩ := tryField_sound tl name d s h
      exact ⟨w, by simp only [jlookupF, if_neg hk]; exact hw, htw, hcw⟩

theorem namedChain_sound (fs : JsFields) (d : Nat) (s : String)
    (h : namedChain fs d = some s) :
    ∃ name w, jlookupF fs name = some w ∧ truthy w = true ∧
      (w = .str s ∨ extractTextContent w (d + 1) = some s) := by
  unfold namedChain at h
  rcases (orOpt_eq_some _ _ _).1 h with h | ⟨-, h⟩
  · obtain ⟨w, a, b, c⟩ := tryField_sound _ _ _ _ h
    exact ⟨_, w, a, b, c⟩
  rcases (orOpt_eq_some _ _ _).1 h with h | ⟨-, h⟩
  · obtain ⟨w, a, b, c⟩ := tryField_sound _ _ _ _ h
    exact ⟨_, w, a, b, c⟩
  rcases (orOpt_eq_some _ _ _).1 h with h | ⟨-, h⟩
  · obtain ⟨w, a, b, c⟩ := tryField_sound _ _ _ _ h
    exact ⟨_, w, a, b, c⟩
  rcases (orOpt_eq_some _ _ _).1 h with h | ⟨-, h⟩
  · obtain ⟨w, a, b, c⟩ := tryField_sound _ _ _ _ h
    exact ⟨_, w, a, b, c⟩
  rcases (orOpt_eq_some _ _ _).1 h with h | ⟨-, h⟩
  · obtain ⟨w, a, b, c⟩ := tryField_sound _ _ _ _ h
    exact ⟨_, w, a, b, c⟩
  rcases (orOpt_eq_some _ _ _).1 h with h | ⟨-, h⟩
  · obtain ⟨w, a, b, c⟩ := tryField_sound _ _ _ _ h
    exact ⟨_, w, a, b, c⟩
  rcases (orOpt_eq_some _ _ _).1 h with h | ⟨-, h⟩
  · obtain ⟨w, a, b, c⟩ := tryField_sound _ _ _ _ h
    exact ⟨_, w, a, b, c⟩
  · obtain ⟨w, a, b, c⟩ := tryField_sound _ _ _ _ h
    exact ⟨_, w, a, b, c⟩

theorem extract_sound_aux : ∀ N : Nat, ∀ v : JsValue, sizeOf v ≤ N → ∀ d s,
    extractTextContent v d = some s → d ≤ 5 ∧ hasLeafLe v (6 - d) = true := by
  intro N
  induction N with
  | zero =>
    intro v hv
    exfalso
    have h1 : 1 ≤ sizeOf v := by cases v <;> simp
    omega
  | succ n ihN =>
    intro v hv d s h
    by_cases hd : 5 < d
    · rw [extract_depth_gt v d hd] at h
      exact absurd h (by simp)
    have hd5 : d ≤ 5 := by omega
    cases v with
    | null => simp [extractTextContent, hd] at h
    | bool b => simp [extractTextContent, hd] at h
    | num k => simp [extractTextContent, hd] at h
    | str s2 => exact ⟨hd5, rfl⟩
    | arr xs =>
      simp only [extractTextContent, if_neg hd] at h
      obtain ⟨x, hx, hex⟩ := extractList_sound xs d s h
      have hsx : sizeOf x ≤ n := by
        have h1 := sizeOf_lt_of_memL xs x hx
        have h2 : sizeOf (JsValue.arr xs) = 1 + sizeOf xs := by simp
        omega
      obtain ⟨hdx, hlx⟩ := ihN x hsx (d + 1) s hex
      refine ⟨hd5, ?_⟩
      have h6 : 6 - d = (5 - d) + 1 := by omega
      rw [h6]
      simp only [hasLeafLe]
      refine (hasLeafLeL_iff xs (5 - d)).2 ⟨x, hx, ?_⟩
      have h7 : 6 - (d + 1) = 5 - d := by omega
      rwa [h7] at hlx
    | obj fs =>
      rw [extract_obj_eq fs d hd] at h
      have hsfs : sizeOf fs ≤ n := by
        have h2 : sizeOf (JsValue.obj fs) = 1 + sizeOf fs := by simp
        omega
      cases hc : namedChain fs d with
      | some u =>
        rw [hc] at h
        injection h with h2
        subst h2
        obtain ⟨name, w, hlk, htw, hcase⟩ := namedChain_sound fs d u hc
        have hmem := jlookupF_mem fs name w hlk
        refine ⟨hd5, ?_⟩
        have h6 : 6 - d = (5 - d) + 1 := by omega
        rw [h6]
        simp only [hasLeafLe]
        refine (hasLeafLeF_iff fs (5 - d)).2 ⟨(name, w), hmem, ?_⟩
        rcases hcase with rfl | hev
        · rfl
        · have hsw : sizeOf w ≤ n := by
            have h1 := sizeOf_lt_of_memF fs name w hmem
            omega
          obtain ⟨hdw, hlw⟩ := ihN w hsw (d + 1) u hev
          have h7 : 6 - (d + 1) = 5 - d := by omega
          rwa [h7] at hlw
      | none =>
        rw [hc] at h
        obtain ⟨p, hp, hep⟩ := extractAll_sound fs d s h
        have hsp : sizeOf p.2 ≤ n := by
          have h1 := sizeOf_lt_of_memF fs p.1 p.2 hp
          omega
        obtain ⟨hdp, hlp⟩ := ihN p.2 hsp (d + 1) s hep
        refine ⟨hd5, ?_⟩
        have h6 : 6 - d = (5 - d) + 1 := by omega
        rw [h6]
        simp only [hasLeafLe]
        refine (hasLeafLeF_iff fs (5 - d)).2 ⟨p, hp, ?_⟩
        have h7 : 6 - (d + 1) = 5 - d := by omega
        rwa [h7] at hlp

theorem extract_sound (v : JsValue) (d : Nat) (s : String)
    (h : extractTextContent v d = some s) :
    d ≤ 5 ∧ hasLeafLe v (6 - d) = true :=
  extract_sound_aux (sizeOf v) v le_rfl d s h

theorem extract_none_of_no_leaf (v : JsValue) (h : hasLeafLe v 6 = false) :
    extractTextContent v 0 = none := by
  cases he : extractTextContent v 0 with
  | none => rfl
  | some s =>
    obtain ⟨-, hl⟩ := extract_sound v 0 s he
    rw [show (6 : Nat) - 0 = 6 from rfl] at hl
    rw [h] at hl
    exact absurd hl (by simp)

theorem extract_none_of_noStr (v : JsValue) (h : noStrLeaf v = true) :
    extractTextContent v 0 = none :=
  extract_none_of_no_leaf v (noStr_no_leaf 6 v h)

theorem extractList_complete : (xs : JsList) → (d : Nat) →
    (∀ y ∈ xs.toList, hasNELeafLe y (5 - (d + 1)) = true →
      ∃ s, s ≠ "" ∧ extractTextContent y (d + 1) = some s) →
    (∃ x ∈ xs.toList, hasNELeafLe x (5 - (d + 1)) = true) →
    ∃ s, s ≠ "" ∧ extractList xs d = some s
  | .nil, d, _, hex => by simp [JsList.toList] at hex
  | .cons x tl, d, IH, hex => by
    obtain ⟨y, hy, hney⟩ := hex
    simp only [JsList.toList, List.mem_cons] at hy
    rcases hy with rfl | hy
    · obtain ⟨s, hs, hes⟩ := IH y (by simp [JsList.toList]) hney
      exact ⟨s, hs, by simp only [extractList, hes, if_neg hs]⟩
    · cases hx : extractTextContent x (d + 1) with
      | some u =>
        by_cases hu : u = ""
        · subst hu
          obtain ⟨s, hs, hes⟩ :=
            extractList_complete tl d
              (fun z hz => IH z (by simp only [JsList.toList, List.mem_cons]; exact Or.inr hz))
              ⟨y, hy, hney⟩
          refine ⟨s, hs, ?_⟩
          simp only [extractList, hx, if_pos]
          exact hes
        · exact ⟨u, hu, by simp only [extractList, hx, if_neg hu]⟩
      | none =>
        obtain ⟨s, hs, hes⟩ :=
          extractList_complete tl d
            (fun z hz => IH z (by simp only [JsList.toList, List.mem_cons]; exact Or.inr hz))
            ⟨y, hy, hney⟩
        refine ⟨s, hs, ?_⟩
        simp only [extractList, hx]
        exact hes

theorem extractAll_complete : (fs : JsFields) → (d : Nat) →
    (∀ p ∈ fs.toList, hasNELeafLe p.2 (5 - (d + 1)) = true →
      ∃ s, s ≠ "" ∧ extractTextContent p.2 (d + 1) = some s) →
    (∃ p ∈ fs.toList, hasNELeafLe p.2 (5 - (d + 1)) = true) →
    ∃ s, s ≠ "" ∧ extractAll fs d = some s
  | .nil, d, _, hex => by simp [JsFields.toList] at hex
  | .cons k v tl, d, IH, hex => by
    obtain ⟨p, hp, hnep⟩ := hex
    simp only [JsFields.toList, List.mem_cons] at hp
    rcases hp with rfl | hp
    · obtain ⟨s, hs, hes⟩ := IH (k, v) (by simp [JsFields.toList]) hnep
      exact ⟨s, hs, by simp only [extractAll, hes, if_neg hs]⟩
    · cases hx : extractTextContent v (d + 1) with
      | some u =>
        by_cases hu : u = ""
        · subst hu
          obtain ⟨s, hs, hes⟩ :=
            extractAll_complete tl d
              (fun q hq => IH q (by simp only [JsFields.toList, List.mem_cons]; exact Or.inr hq))
              ⟨p, hp, hnep⟩
          refine ⟨s, hs, ?_⟩
          simp only [extractAll, hx, if_pos]
          exact hes
        · exact ⟨u, hu, by simp only [extractAll, hx, if_neg hu]⟩
      | none =>
        obtain ⟨s, hs, hes⟩ :=
          extractAll_complete tl d
            (fun q hq => IH q (by simp only [JsFields.toList, List.mem_cons]; exact Or.inr hq))
            ⟨p, hp, hnep⟩
        refine ⟨s, hs, ?_⟩
        simp only [extractAll, hx]
        exact hes

theorem extract_complete_aux : ∀ N : Nat, ∀ v : JsValue, sizeOf v ≤ N → ∀ d, d ≤ 5 →
    hasNELeafLe v (5 - d) = true →
    ∃ s, s ≠ "" ∧ extractTextContent v d = some s := by
  intro N
  induction N with
  | zero =>
    intro v hv
    exfalso
    have h1 : 1 ≤ sizeOf v := by cases v <;> simp
    omega
  | succ n ihN =>
    intro v hv d hd hne
    have hdd : ¬ 5 < d := by omega
    cases v with
    | null => simp [hasNELeafLe] at hne
    | bool b => simp [hasNELeafLe] at hne
    | num k => simp [hasNELeafLe] at hne
    | str s =>
      have hs : s ≠ "" := by simpa [hasNELeafLe] using hne
      exact ⟨s, hs, by simp [extractTextContent, hdd]⟩
    | arr xs =>
      have hlt : d < 5 := by
        by_contra hc
        have hdeq : d = 5 := by omega
        subst hdeq
        simp [hasNELeafLe] at hne
      have h5 : 5 - d = (5 - (d + 1)) + 1 := by omega
      rw [h5] at hne
      simp only [hasNELeafLe] at hne
      obtain ⟨x, hx, hnex⟩ := (hasNELeafLeL_iff xs (5 - (d + 1))).1 hne
      have IH : ∀ y ∈ xs.toList, hasNELeafLe y (5 - (d + 1)) = true →
          ∃ s, s ≠ "" ∧ extractTextContent y (d + 1) = some s := by
        intro y hy hney
        have hsy : sizeOf y ≤ n := by
          have h1 := sizeOf_lt_of_memL xs y hy
          have h2 : sizeOf (JsValue.arr xs) = 1 + sizeOf xs := by simp
          omega
        exact ihN y hsy (d + 1) (by omega) hney
      obtain ⟨s, hs, hes⟩ := extractList_complete xs d IH ⟨x, hx, hnex⟩
      exact ⟨s, hs, by simp only [extractTextContent, if_neg hdd]; exact hes⟩
    | obj fs =>
      have hlt : d < 5 := by
        by_contra hc
        have hdeq : d = 5 := by omega
        subst hdeq
        simp [hasNELeafLe] at hne
      cases hc : namedChain fs d with
      | some u =>
        exact ⟨u, namedChain_ne_empty fs d u hc, by rw [extract_obj_eq fs d hdd, hc]⟩
      | none =>
        have h5 : 5 - d = (5 - (d + 1)) + 1 := by omega
        rw [h5] at hne
        simp only [hasNELeafLe] at hne
        obtain ⟨p, hp, hnep⟩ := (hasNELeafLeF_iff fs (5 - (d + 1))).1 hne
        have IH : ∀ q ∈ fs.toList, hasNELeafLe q.2 (5 - (d + 1)) = true →
            ∃ s, s ≠ "" ∧ extractTextContent q.2 (d + 1) = some s := by
          intro q hq hneq
          have hsq : sizeOf q.2 ≤ n := by
            have h1 := sizeOf_lt_of_memF fs q.1 q.2 hq
            have h2 : sizeOf (JsValue.obj fs) = 1 + sizeOf fs := by simp
            omega
          exact ihN q.2 hsq (d + 1) (by omega) hneq
        obtain ⟨s, hs, hes⟩ := extractAll_complete fs d IH ⟨p, hp, hnep⟩
        refine ⟨s, hs, ?_⟩
        rw [extract_obj_eq fs d hdd, hc]
        exact hes

theorem extract_complete (v : JsValue) (d : Nat) (hd : d ≤ 5)
    (hne : hasNELeafLe v (5 - d) = true) :
    ∃ s, s ≠ "" ∧ extractTextContent v d = some s :=
  extract_complete_aux (sizeOf v) v le_rfl d hd hne

theorem firstStrField_ne_empty (v : JsValue) : (ks : List String) → (s : String) →
    firstStrField v ks = some s → s ≠ ""
  | [], s, h => by simp [firstStrField] at h
  | k :: rest, s, h => by
    simp only [firstStrField] at h
    split at h
    next s2 heq =>
      split at h
      next hs2 => exact firstStrField_ne_empty v rest s h
      next hs2 =>
        injection h with h2
        exact h2 ▸ hs2
    next heq => exact firstStrField_ne_empty v rest s h

theorem getField_noStr (v : JsValue) (hv : noStrLeaf v = true) (k : String) (s : String) :
    getField v k ≠ some (.str s) := by
  cases v with
  | null => simp [getField]
  | bool b => simp [getField]
  | num n => simp [getField]
  | str s2 => simp [noStrLeaf] at hv
  | arr xs =>
    simp only [getField]
    split <;> simp
  | obj fs =>
    simp only [getField]
    intro h
    have hmem := jlookupF_mem fs k (.str s) h
    have := (noStrLeafF_iff fs).1 (by simpa [noStrLeaf] using hv) (k, .str s) hmem
    simp [noStrLeaf] at this

theorem firstStrField_none_of_noStr (v : JsValue) (hv : noStrLeaf v = true) :
    (ks : List String) → firstStrField v ks = none
  | [] => rfl
  | k :: rest => by
    simp only [firstStrField]
    split
    next s2 heq => exact absurd heq (getField_noStr v hv k s2)
    next heq => exact firstStrField_none_of_noStr v hv rest

theorem fallbackRaw_ok_str (data : JsValue) (r : Option JsValue)
    (h : fallbackRaw data = .ok r) : ∃ s, r = some (.str s) ∧ s ≠ "" := by
  unfold fallbackRaw at h
  by_cases hkeys : 0 < objKeysLen data
  · rw [if_pos hkeys] at h
    by_cases hlen : 2 < (stringify data).length
    · rw [if_pos hlen] at h
      cases hx : extractTextContent data 0 with
      | some t =>
        simp only [hx] at h
        by_cases ht : t = ""
        · rw [if_pos ht] at h
          injection h with h2
          exact ⟨_, h2.symm, rawMarker_append_ne_empty _⟩
        · rw [if_neg ht] at h
          injection h with h2
          exact ⟨t, h2.symm, ht⟩
      | none =>
        simp only [hx] at h
        injection h with h2
        exact ⟨_, h2.symm, rawMarker_append_ne_empty _⟩
    · rw [if_neg hlen] at h
      exact absurd h (by simp)
  · rw [if_neg hkeys] at h
    exact absurd h (by simp)

theorem fallbackMsg_ok_str (data : JsValue) (r : Option JsValue)
    (h : fallbackMsg data = .ok r) : ∃ s, r = some (.str s) ∧ s ≠ "" := by
  unfold fallbackMsg at h
  by_cases hmsg : (truthyO (getField data "message") &&
      typeofIsObjectO (getField data "message")) = true
  · rw [if_pos hmsg] at h
    cases hm : firstStrFieldO (getField data "message") ["content", "text", "value"] with
    | some s =>
      simp only [hm] at h
      injection h with h2
      refine ⟨s, h2.symm, ?_⟩
      cases hg : getField data "message" with
      | none => rw [hg] at hm; simp [firstStrFieldO] at hm
      | some w =>
        rw [hg] at hm
        simp only [firstStrFieldO] at hm
        exact firstStrField_ne_empty w _ s hm
    | none =>
      simp only [hm] at h
      exact fallbackRaw_ok_str data r h
  · rw [if_neg hmsg] at h
    simp only [] at h
    exact fallbackRaw_ok_str data r h

theorem fallback_ok_str (data : JsValue) (r : Option JsValue)
    (h : fallbackExtract data = .ok r) : ∃ s, r = some (.str s) ∧ s ≠ "" := by
  unfold fallbackExtract at h
  by_cases hguard : (truthy data && typeofIsObject data) = true
  · rw [if_pos hguard] at h
    cases h1 : firstStrField data ["content", "text", "result", "answer", "generated_text"] with
    | some s =>
      simp only [h1] at h
      injection h with h2
      exact ⟨s, h2.symm, firstStrField_ne_empty data _ s h1⟩
    | none =>
      simp only [h1] at h
      exact fallbackMsg_ok_str data r h
  · rw [if_neg hguard] at h
    exact absurd h (by simp)

theorem fallbackRaw_ok_of_gates (data : JsValue) (hkeys : 0 < objKeysLen data)
    (hlen : 2 < (stringify data).length) : ∃ r, fallbackRaw data = .ok r := by
  unfold fallbackRaw
  rw [if_pos hkeys, if_pos hlen]
  cases hx : extractTextContent data 0 with
  | some t =>
    simp only [hx]
    by_cases ht : t = ""
    · rw [if_pos ht]; exact ⟨_, rfl⟩
    · rw [if_neg ht]; exact ⟨_, rfl⟩
  | none =>
    simp only [hx]
    exact ⟨_, rfl⟩

theorem fallbackMsg_ok_of_gates (data : JsValue) (hkeys : 0 < objKeysLen data)
    (hlen : 2 < (stringify data).length) : ∃ r, fallbackMsg data = .ok r := by
  unfold fallbackMsg
  cases hc : (if (truthyO (getField data "message") &&
      typeofIsObjectO (getField data "message")) = true then
        firstStrFieldO (getField data "message") ["content", "text", "value"]
      else none) with
  | some s => simp only [hc]; exact ⟨_, rfl⟩
  | none =>
    simp only [hc]
    exact fallbackRaw_ok_of_gates data hkeys hlen

theorem fallback_obj_cons_ok (k : String) (v : JsValue) (tl : JsFields) :
    ∃ r, fallbackExtract (.obj (.cons k v tl)) = .ok r := by
  unfold fallbackExtract
  rw [if_pos (by rfl)]
  cases h1 : firstStrField (.obj (.cons k v tl))
      ["content", "text", "result", "answer", "generated_text"] with
  | some s => simp only [h1]; exact ⟨_, rfl⟩
  | none =>
    simp only [h1]
    exact fallbackMsg_ok_of_gates _ (by simp [objKeysLen, JsFields.len])
      (stringify_obj_gt_two k v tl)

theorem fallback_arr_cons_ok (x : JsValue) (tl : JsList) :
    ∃ r, fallbackExtract (.arr (.cons x tl)) = .ok r := by
  unfold fallbackExtract
  rw [if_pos (by rfl)]
  cases h1 : firstStrField (.arr (.cons x tl))
      ["content", "text", "result", "answer", "generated_text"] with
  | some s => simp only [h1]; exact ⟨_, rfl⟩
  | none =>
    simp only [h1]
    exact fallbackMsg_ok_of_gates _ (by simp [objKeysLen, JsList.len])
      (stringify_arr_gt_two x tl)

theorem fallback_num (n : Int) : fallbackExtract (.num n) = .error .unexpectedFormat := by
  simp [fallbackExtract, typeofIsObject]

theorem fallback_bool (b : Bool) : fallbackExtract (.bool b) = .error .unexpectedFormat := by
  simp [fallbackExtract, typeofIsObject]

theorem normResp_null : normalizeResponse .null = .error .typeError := rfl

theorem normResp_str (s : String) : normalizeResponse (.str s) = .ok (some (.str s)) := rfl

theorem normResp_num (n : Int) : normalizeResponse (.num n) = .error .unexpectedFormat := by
  show fallbackExtract (.num n) = _
  exact fallback_num n

theorem normResp_bool (b : Bool) : normalizeResponse (.bool b) = .error .unexpectedFormat := by
  show fallbackExtract (.bool b) = _
  exact fallback_bool b

theorem normResp_arr_nil : normalizeResponse (.arr .nil) = .error .unexpectedFormat := rfl

theorem normResp_obj_nil : normalizeResponse (.obj .nil) = .error .unexpectedFormat := rfl

theorem normResp_arr_cons_eq (x : JsValue) (tl : JsList) :
    normalizeResponse (.arr (.cons x tl)) = fallbackExtract (.arr (.cons x tl)) := rfl

/-- C2 helper: the normalizer throws exactly on the payloads listed by
`normFails`. -/
theorem normFails_iff : ∀ v : JsValue, isErrResult (normalizeResponse v) = normFails v := by
  intro v
  cases v with
  | null => rfl
  | num n => rw [normResp_num]; rfl
  | bool b => rw [normResp_bool]; rfl
  | str s => rw [normResp_str]; rfl
  | arr xs =>
    cases xs with
    | nil => rfl
    | cons x tl =>
      obtain ⟨r, hr⟩ := fallback_arr_cons_ok x tl
      rw [normResp_arr_cons_eq, hr]
      rfl
  | obj fs =>
    cases fs with
    | nil => rfl
    | cons k0 v0 tl =>
      have hnn : ¬ (isNull (JsValue.obj (.cons k0 v0 tl)) = true) := by simp [isNull]
      show isErrResult (normalizeResponse (JsValue.obj (.cons k0 v0 tl))) =
        badChoicesIndex (JsValue.obj (.cons k0 v0 tl))
      unfold normalizeResponse
      rw [if_neg hnn]
      by_cases hch : (truthyO (getField (JsValue.obj (.cons k0 v0 tl)) "choices") &&
          lengthGtZeroO (getField (JsValue.obj (.cons k0 v0 tl)) "choices")) = true
      · rw [if_pos hch]
        unfold badChoicesIndex
        rw [hch]
        cases hidx : indexZeroO (getField (JsValue.obj (.cons k0 v0 tl)) "choices") with
        | none => simp only [hidx]; rfl
        | some c0 =>
          simp only [hidx]
          cases hc0 : isNull c0 with
          | true => simp [isErrResult]
          | false =>
            rw [if_neg (show ¬ (false = true) by simp)]
            by_cases hm : truthyO (getField c0 "message") = true
            · rw [if_pos hm]
              simp [isErrResult]
            · rw [if_neg hm]
              by_cases htx : truthyO (getField c0 "text") = true
              · rw [if_pos htx]
                simp [isErrResult]
              · rw [if_neg htx]
                obtain ⟨r, hr⟩ := fallback_obj_cons_ok k0 v0 tl
                rw [hr]
                simp [isErrResult]
      · rw [if_neg hch]
        have hch' : (truthyO (getField (JsValue.obj (.cons k0 v0 tl)) "choices") &&
            lengthGtZeroO (getField (JsValue.obj (.cons k0 v0 tl)) "choices")) = false := by
          simpa using hch
        by_cases hm2 : (truthyO (getField (JsValue.obj (.cons k0 v0 tl)) "message") &&
            truthyO (getFieldO (getField (JsValue.obj (.cons k0 v0 tl)) "message") "content")) = true
        · rw [if_pos hm2]
          simp [isErrResult, badChoicesIndex, hch']
        · rw [if_neg hm2]
          by_cases hresp : truthyO (getField (JsValue.obj (.cons k0 v0 tl)) "response") = true
          · rw [if_pos hresp]
            simp [isErrResult, badChoicesIndex, hch']
          · rw [if_neg hresp]
            by_cases hout : truthyO (getField (JsValue.obj (.cons k0 v0 tl)) "output") = true
            · rw [if_pos hout]
              simp [isErrResult, badChoicesIndex, hch']
            · rw [if_neg hout]
              obtain ⟨r, hr⟩ := fallback_obj_cons_ok k0 v0 tl
              show isErrResult (fallbackExtract (JsValue.obj (JsFields.cons k0 v0 tl))) = _
              rw [hr]
              simp [isErrResult, badChoicesIndex, hch']

/-- C3 helper: every successful result of the normalizer is truthy except a
bare empty-string payload (returned unchanged) and the unchecked
`choices[0].message.content` path. -/
theorem normResp_ok_truthy : ∀ (data : JsValue) (r : Option JsValue),
    normalizeResponse data = .ok r →
    truthyO r = true ∨ data = .str "" ∨ choicesMsgPath data = true := by
  intro data r h
  cases data with
  | null => rw [normResp_null] at h; exact absurd h (by simp)
  | num n => rw [normResp_num] at h; exact absurd h (by simp)
  | bool b => rw [normResp_bool] at h; exact absurd h (by simp)
  | str s =>
    rw [normResp_str] at h
    injection h with h2
    by_cases hs : s = ""
    · exact Or.inr (Or.inl (by rw [hs]))
    · exact Or.inl (by rw [← h2]; simpa [truthyO, truthy] using hs)
  | arr xs =>
    cases xs with
    | nil => rw [normResp_arr_nil] at h; exact absurd h (by simp)
    | cons x tl =>
      rw [normResp_arr_cons_eq] at h
      obtain ⟨s, hr, hs⟩ := fallback_ok_str _ _ h
      exact Or.inl (by rw [hr]; simpa [truthyO, truthy] using hs)
  | obj fs =>
    cases fs with
    | nil => rw [normResp_obj_nil] at h; exact absurd h (by simp)
    | cons k0 v0 tl =>
      have hnn : ¬ (isNull (JsValue.obj (.cons k0 v0 tl)) = true) := by simp [isNull]
      unfold normalizeResponse at h
      rw [if_neg hnn] at h
      by_cases hch : (truthyO (getField (JsValue.obj (.cons k0 v0 tl)) "choices") &&
          lengthGtZeroO (getField (JsValue.obj (.cons k0 v0 tl)) "choices")) = true
      · rw [if_pos hch] at h
        cases hidx : indexZeroO (getField (JsValue.obj (.cons k0 v0 tl)) "choices") with
        | none => rw [hidx] at h; exact absurd h (by simp)
        | some c0 =>
          rw [hidx] at h
          simp only [] at h
          by_cases hc0 : isNull c0 = true
          · rw [if_pos hc0] at h; exact absurd h (by simp)
          · rw [if_neg hc0] at h
            by_cases hm : truthyO (getField c0 "message") = true
            · refine Or.inr (Or.inr ?_)
              have hc0' : isNull c0 = false := by simpa using hc0
              simp [choicesMsgPath, hch, hidx, hm, hc0']
            · rw [if_neg hm] at h
              by_cases htx : truthyO (getField c0 "text") = true
              · rw [if_pos htx] at h
                injection h with h2
                exact Or.inl (h2 ▸ htx)
              · rw [if_neg htx] at h
                obtain ⟨s, hr, hs⟩ := fallback_ok_str _ _ h
                exact Or.inl (by rw [hr]; simpa [truthyO, truthy] using hs)
      · rw [if_neg hch] at h
        by_cases hm2 : (truthyO (getField (JsValue.obj (.cons k0 v0 tl)) "message") &&
            truthyO (getFieldO (getField (JsValue.obj (.cons k0 v0 tl)) "message") "content")) = true
        · rw [if_pos hm2] at h
          injection h with h2
          rw [Bool.and_eq_true] at hm2
          exact Or.inl (h2 ▸ hm2.2)
        · rw [if_neg hm2] at h
          by_cases hresp : truthyO (getField (JsValue.obj (.cons k0 v0 tl)) "response") = true
          · rw [if_pos hresp] at h
            injection h with h2
            exact Or.inl (h2 ▸ hresp)
          · rw [if_neg hresp] at h
            by_cases hout : truthyO (getField (JsValue.obj (.cons k0 v0 tl)) "output") = true
            · rw [if_pos hout] at h
              injection h with h2
              exact Or.inl (h2 ▸ hout)
            · rw [if_neg hout] at h
              obtain ⟨s, hr, hs⟩ := fallback_ok_str _ _ h
              exact Or.inl (by rw [hr]; simpa [truthyO, truthy] using hs)

/-- C1 helper: whenever the (amended) priority-chain description matches, the
normalizer returns exactly what it prescribes. -/
theorem prioritySpec_refines : ∀ (data : JsValue) (r : Option JsValue),
    prioritySpec data = some r → normalizeResponse data = .ok r := by
  intro data r h
  unfold prioritySpec at h
  by_cases hnn : isNull data = true
  · rw [if_pos hnn] at h
    exact absurd h (by simp)
  rw [if_neg hnn] at h
  unfold normalizeResponse
  rw [if_neg hnn]
  by_cases hch : (truthyO (getField data "choices") &&
      lengthGtZeroO (getField data "choices")) = true
  · rw [if_pos hch] at h
    rw [if_pos hch]
    cases hidx : indexZeroO (getField data "choices") with
    | none =>
      rw [hidx] at h
      exact absurd h (by simp)
    | some c0 =>
      rw [hidx] at h
      simp only [] at h
      simp only []
      by_cases hc0 : isNull c0 = true
      · rw [if_pos hc0] at h
        exact absurd h (by simp)
      · rw [if_neg hc0] at h
        rw [if_neg hc0]
        by_cases hm : truthyO (getField c0 "message") = true
        · rw [if_pos hm] at h
          rw [if_pos hm]
          injection h with h2
          rw [h2]
        · rw [if_neg hm] at h
          rw [if_neg hm]
          by_cases htx : truthyO (getField c0 "text") = true
          · rw [if_pos htx] at h
            rw [if_pos htx]
            injection h with h2
            rw [h2]
          · rw [if_neg htx] at h
            exact absurd h (by simp)
  · rw [if_neg hch] at h
    rw [if_neg hch]
    by_cases hm2 : (truthyO (getField data "message") &&
        truthyO (getFieldO (getField data "message") "content")) = true
    · rw [if_pos hm2] at h
      rw [if_pos hm2]
      injection h with h2
      rw [h2]
    · rw [if_neg hm2] at h
      rw [if_neg hm2]
      by_cases hresp : truthyO (getField data "response") = true
      · rw [if_pos hresp] at h
        rw [if_pos hresp]
        injection h with h2
        rw [h2]
      · rw [if_neg hresp] at h
        rw [if_neg hresp]
        by_cases hout : truthyO (getField data "output") = true
        · rw [if_pos hout] at h
          rw [if_pos hout]
          injection h with h2
          rw [h2]
        · rw [if_neg hout] at h
          exact absurd h (by simp)

theorem getField_noStr_sub (v : JsValue) (hv : noStrLeaf v = true) (k : String)
    (w : JsValue) (h : getField v k = some w) : noStrLeaf w = true := by
  cases v with
  | null => simp [getField] at h
  | bool b => simp [getField] at h
  | num n => simp [getField] at h
  | str s => simp [noStrLeaf] at hv
  | arr xs =>
    simp only [getField] at h
    split at h
    · injection h with h2
      rw [← h2]
      rfl
    · exact absurd h (by simp)
  | obj fs =>
    simp only [getField] at h
    exact (noStrLeafF_iff fs).1 (by simpa [noStrLeaf] using hv) (k, w) (jlookupF_mem fs k w h)

/-- C5 helper: on a non-empty object payload with no string leaf anywhere
that also misses every check of the priority chain, the normalizer returns
the raw-format diagnostic string. -/
theorem normResp_raw_of_noStr (k0 : String) (v0 : JsValue) (tl : JsFields)
    (hns : noStrLeaf (JsValue.obj (.cons k0 v0 tl)) = true)
    (hch : (truthyO (getField (JsValue.obj (.cons k0 v0 tl)) "choices") &&
        lengthGtZeroO (getField (JsValue.obj (.cons k0 v0 tl)) "choices")) = false)
    (hm2 : (truthyO (getField (JsValue.obj (.cons k0 v0 tl)) "message") &&
        truthyO (getFieldO (getField (JsValue.obj (.cons k0 v0 tl)) "message") "content")) = false)
    (hresp : truthyO (getField (JsValue.obj (.cons k0 v0 tl)) "response") = false)
    (hout : truthyO (getField (JsValue.obj (.cons k0 v0 tl)) "output") = false) :
    normalizeResponse (JsValue.obj (.cons k0 v0 tl)) =
      .ok (some (.str (rawMarker ++ stringify (JsValue.obj (.cons k0 v0 tl))))) := by
  unfold normalizeResponse
  rw [if_neg (show ¬ (isNull (JsValue.obj (.cons k0 v0 tl)) = true) by simp [isNull])]
  rw [if_neg (show ¬ _ by simp [hch]), if_neg (show ¬ _ by simp [hm2]),
    if_neg (show ¬ _ by simp [hresp]), if_neg (show ¬ _ by simp [hout])]
  show fallbackExtract (JsValue.obj (.cons k0 v0 tl)) = _
  unfold fallbackExtract
  rw [if_pos (by rfl)]
  rw [firstStrField_none_of_noStr _ hns _]
  simp only []
  unfold fallbackMsg
  have hmsgnone : (if (truthyO (getField (JsValue.obj (.cons k0 v0 tl)) "message") &&
      typeofIsObjectO (getField (JsValue.obj (.cons k0 v0 tl)) "message")) = true then
        firstStrFieldO (getField (JsValue.obj (.cons k0 v0 tl)) "message")
          ["content", "text", "value"]
      else none) = none := by
    split
    · cases hg : getField (JsValue.obj (.cons k0 v0 tl)) "message" with
      | none => simp [firstStrFieldO]
      | some w =>
        simp only [firstStrFieldO]
        exact firstStrField_none_of_noStr w (getField_noStr_sub _ hns _ w hg) _
    · rfl
  rw [hmsgnone]
  simp only []
  unfold fallbackRaw
  rw [if_pos (show 0 < objKeysLen (JsValue.obj (.cons k0 v0 tl)) by
    simp [objKeysLen, JsFields.len])]
  rw [if_pos (stringify_obj_gt_two k0 v0 tl)]
  rw [extract_none_of_noStr _ hns]

/-! ## Claim theorems -/

/-- C1 counterexample: the payload `\x7bresponse: ""\x7d` has a string-typed
`response` field and matches no earlier shape, so the claim as stated demands
the normalizer return that empty string; the code's check is truthiness, not
string-typedness, so it instead falls through to the raw-format diagnostic, a
non-empty string. -/
theorem C1_counterexample :
    normalizeResponse (jsObj [("response", .str "")]) =
      .ok (some (.str "AI response (raw format): \x7b\x22response\x22:\x22\x22\x7d")) ∧
    ("AI response (raw format): \x7b\x22response\x22:\x22\x22\x7d" : String) ≠ "" :=
  ⟨rfl, by decide⟩

/-- C1 (amended): the known-shape checks run in the fixed source order with
first match wins, where a check only matches a truthy value: a truthy
`choices` with positive length takes the `choices` branch (truthy
`choices[0].message` returns `choices[0].message.content` unchecked, else a
truthy `choices[0].text` is returned, else control falls to the fallback
scan); otherwise a truthy `message` with truthy `message.content` returns it;
otherwise a truthy `response`; otherwise a truthy `output`.  The five example
equations of the claim all hold. -/
theorem C1_priority_chain :
    (∀ (data : JsValue) (r : Option JsValue),
        prioritySpec data = some r → normalizeResponse data = .ok r) ∧
    normalizeResponse
      (jsObj [("choices", jsArr [jsObj [("message", jsObj [("content", .str "X")])]])]) =
      .ok (some (.str "X")) ∧
    normalizeResponse (jsObj [("choices", jsArr [jsObj [("text", .str "X")]])]) =
      .ok (some (.str "X")) ∧
    normalizeResponse (jsObj [("message", jsObj [("content", .str "X")])]) =
      .ok (some (.str "X")) ∧
    normalizeResponse (jsObj [("response", .str "X")]) = .ok (some (.str "X")) ∧
    normalizeResponse (jsObj [("output", .str "X")]) = .ok (some (.str "X")) :=
  ⟨prioritySpec_refines, rfl, rfl, rfl, rfl, rfl⟩

/-- C1 witness: the priority-chain description applied at a concrete
payload. -/
theorem C1_witness :
    normalizeResponse (jsObj [("output", .str "Y")]) = .ok (some (.str "Y")) :=
  C1_priority_chain.1 _ _ rfl

/-- C2 counterexample: the empty array and the number 5 are payloads other
than `null` and the empty object, yet the normalizer also throws on them —
refuting "this is the only hard failure case". -/
theorem C2_counterexample :
    normalizeResponse (jsArr []) = .error .unexpectedFormat ∧
    normalizeResponse (.num 5) = .error .unexpectedFormat :=
  ⟨rfl, rfl⟩

/-- C2 (amended): `normalize(\x7b\x7d)` throws the unexpected-format error and
`normalize(null)` throws a TypeError from dereferencing `null` (both errors
are caught by the same catch); these are not the only hard failures — the
normalizer throws exactly on `null`, numbers, booleans, the empty object, the
empty array, and payloads whose truthy positive-length `choices` has an
undefined or null first element; every other payload returns successfully. -/
theorem C2_failure_cases :
    (∀ v : JsValue, isErrResult (normalizeResponse v) = normFails v) ∧
    normalizeResponse .null = .error .typeError ∧
    normalizeResponse (jsObj []) = .error .unexpectedFormat :=
  ⟨normFails_iff, rfl, rfl⟩

/-- C3 counterexample: a payload with a non-empty `choices` array whose first
element has a `message` object (without `content`) makes the normalizer
return `undefined` as a success — refuting "Normalized Text is never
null/undefined when the normalizer returns success". -/
theorem C3_counterexample :
    normalizeResponse (jsObj [("choices", jsArr [jsObj [("message", jsObj [])]])]) =
      .ok none ∧
    isStrResult
      (normalizeResponse (jsObj [("choices", jsArr [jsObj [("message", jsObj [])]])])) =
      false :=
  ⟨rfl, rfl⟩

/-- C3 (amended): every successful result of the normalizer is truthy
(defined, non-null, non-empty) except on two identified paths: a bare empty
string payload is returned unchanged, and the `choices[0].message` branch
returns `choices[0].message.content` without any check, which may be
undefined, null, empty or non-string.  On failure the normalizer signals an
error rather than returning empty text. -/
theorem C3_success_truthy :
    ∀ (data : JsValue) (r : Option JsValue), normalizeResponse data = .ok r →
      truthyO r = true ∨ data = .str "" ∨ choicesMsgPath data = true :=
  normResp_ok_truthy

/-- C3 witness: the amended invariant at a concrete successful payload. -/
theorem C3_witness :
    truthyO (some (.str "hi")) = true ∨ jsObj [("response", .str "hi")] = .str "" ∨
      choicesMsgPath (jsObj [("response", .str "hi")]) = true :=
  C3_success_truthy (jsObj [("response", .str "hi")]) (some (.str "hi")) rfl

/-- C4 counterexample: a payload whose only string leaf sits at nesting depth
6 (strictly deeper than 5), as the direct value of the named field `content`;
the scan nonetheless finds it (the depth guard is checked on entry, but a
named string field is returned without a further depth check), and
normalization returns it instead of falling through. -/
theorem C4_counterexample :
    extractTextContent
      (jsObj [("foo", jsObj [("foo", jsObj [("foo", jsObj [("foo",
        jsObj [("foo", jsObj [("content", .str "X")])])])])])]) 0 = some "X" ∧
    hasLeafLe
      (jsObj [("foo", jsObj [("foo", jsObj [("foo", jsObj [("foo",
        jsObj [("foo", jsObj [("content", .str "X")])])])])])]) 5 = false ∧
    normalizeResponse
      (jsObj [("foo", jsObj [("foo", jsObj [("foo", jsObj [("foo",
        jsObj [("foo", jsObj [("content", .str "X")])])])])])]) =
      .ok (some (.str "X")) :=
  ⟨rfl, rfl, rfl⟩

/-- C4 (amended): the recursive scan is depth-bounded — every payload holding
a non-empty string leaf at nesting depth ≤ 5 yields a non-empty string, and a
payload with no string leaf at depth ≤ 6 yields nothing (leaves at exactly
depth 6 can still be found when they are the direct string value of one of
the eight named fields of a depth-5 object); `normalize(\x7bfoo: \x7bbar:
"X"\x7d\x7d)` finds `"X"` through the scan. -/
theorem C4_bounded_scan :
    (∀ v : JsValue, hasNELeafLe v 5 = true →
      ∃ s, s ≠ "" ∧ extractTextContent v 0 = some s) ∧
    (∀ v : JsValue, hasLeafLe v 6 = false → extractTextContent v 0 = none) ∧
    normalizeResponse (jsObj [("foo", jsObj [("bar", .str "X")])]) =
      .ok (some (.str "X")) :=
  ⟨fun v h => extract_complete v 0 (by omega) (by simpa using h),
   fun v h => extract_none_of_no_leaf v h, rfl⟩

/-- C4 witness: the bounded-scan guarantee applied at a concrete nested
payload. -/
theorem C4_witness :
    ∃ s, s ≠ "" ∧
      extractTextContent (jsObj [("foo", jsObj [("bar", .str "X")])]) 0 = some s :=
  C4_bounded_scan.1 (jsObj [("foo", jsObj [("bar", .str "X")])]) rfl

/-- C5 counterexample: `\x7bresponse: 123\x7d` is a non-empty object with no
string-typed leaf, yet normalization returns the number 123 through the
truthy `response` check of the priority chain — not the raw-format
diagnostic string the claim demands. -/
theorem C5_counterexample :
    normalizeResponse (jsObj [("response", .num 123)]) = .ok (some (.num 123)) ∧
    isStrResult (normalizeResponse (jsObj [("response", .num 123)])) = false :=
  ⟨rfl, rfl⟩

/-- C5 (amended): a non-empty object payload containing no string-typed leaf
anywhere returns the raw-format diagnostic `"AI response (raw format): " ++
JSON.stringify(payload)` without error, provided it also misses every truthy
check of the priority chain (truthy `choices` with positive length, truthy
`message.content`, truthy `response`, truthy `output` — a truthy non-string
field there is returned as-is instead). -/
theorem C5_raw_fallback :
    ∀ (k0 : String) (v0 : JsValue) (tl : JsFields),
      noStrLeaf (JsValue.obj (.cons k0 v0 tl)) = true →
      (truthyO (getField (JsValue.obj (.cons k0 v0 tl)) "choices") &&
        lengthGtZeroO (getField (JsValue.obj (.cons k0 v0 tl)) "choices")) = false →
      (truthyO (getField (JsValue.obj (.cons k0 v0 tl)) "message") &&
        truthyO (getFieldO (getField (JsValue.obj (.cons k0 v0 tl)) "message") "content")) = false →
      truthyO (getField (JsValue.obj (.cons k0 v0 tl)) "response") = false →
      truthyO (getField (JsValue.obj (.cons k0 v0 tl)) "output") = false →
      normalizeResponse (JsValue.obj (.cons k0 v0 tl)) =
        .ok (some (.str (rawMarker ++ stringify (JsValue.obj (.cons k0 v0 tl))))) :=
  normResp_raw_of_noStr

/-- C5 witness: the raw fallback at the claim's own example
`\x7bweird: 123\x7d`. -/
theorem C5_witness :
    normalizeResponse (jsObj [("weird", .num 123)]) =
      .ok (some (.str (rawMarker ++ stringify (jsObj [("weird", .num 123)])))) :=
  C5_raw_fallback "weird" (.num 123) .nil rfl rfl rfl rfl rfl

/-- C6: a bare string payload (including the empty string) is returned
unchanged by the normalizer. -/
theorem C6_string_identity :
    ∀ s : String, normalizeResponse (.str s) = .ok (some (.str s)) :=
  normResp_str

/-- C9 counterexample: after a successful POST the function indeed never
throws, but it does not always return a string — a truthy non-string
`response` field is passed through as-is (here the number 123). -/
theorem C9_counterexample :
    handleLocalResponse (jsObj [("response", .num 123)]) = some (.num 123) ∧
    isStr (.num 123) = false :=
  ⟨rfl, rfl⟩

/-- C9 (amended): once the POST has resolved, `makeLocalRequest` never
propagates an error raised while interpreting the body: every thrown error
(including the unexpected-format throw and the null-dereference TypeError) is
caught and replaced by the fixed apology string, and every successful
normalizer result is returned unchanged — so the function returns a value for
every payload, though not always a string. -/
theorem C9_catch_all :
    (∀ (data : JsValue) (e : NormErr), normalizeResponse data = .error e →
      handleLocalResponse data = some (.str parseErrorMsg)) ∧
    (∀ (data : JsValue) (r : Option JsValue), normalizeResponse data = .ok r →
      handleLocalResponse data = r) := by
  constructor
  · intro data e h
    simp [handleLocalResponse, h]
  · intro data r h
    simp [handleLocalResponse, h]

/-- C9 witness: the catch-and-replace behavior at the null payload. -/
theorem C9_witness : handleLocalResponse .null = some (.str parseErrorMsg) :=
  C9_catch_all.1 .null .typeError rfl

/-- C10 counterexample: called directly on a bare empty string the scan
returns that empty string (the `typeof obj === 'string'` branch has no
truthiness guard), which is neither null nor a non-empty string. -/
theorem C10_counterexample : extractTextContent (.str "") 0 = some "" := rfl

/-- C10 (amended): for every input other than the bare empty string itself,
`extractTextContent` returns either null or a non-empty string — every guard
on recursion results and field values is a truthiness check, so an
empty-string field is never found or returned from within a structure. -/
theorem C10_scan_result :
    ∀ (v : JsValue) (d : Nat), v ≠ .str "" →
      extractTextContent v d = none ∨
        ∃ s, extractTextContent v d = some s ∧ s ≠ "" := by
  intro v d hv
  cases he : extractTextContent v d with
  | none => exact Or.inl rfl
  | some t => exact Or.inr ⟨t, rfl, extract_some_ne_empty v d t he hv⟩

/-- C10 witness: the scan-result shape at a concrete non-empty string. -/
theorem C10_witness :
    extractTextContent (.str "hi") 0 = none ∨
      ∃ s, extractTextContent (.str "hi") 0 = some s ∧ s ≠ "" :=
  C10_scan_result (.str "hi") 0 (by simp)

theorem isSome_of_truthyIntO : ∀ a : Option Int, truthyIntO a = true → a.isSome = true := by
  intro a h
  cases a with
  | none => simp [truthyIntO] at h
  | some n => rfl

theorem isSome_of_truthyRatO : ∀ a : Option Rat, truthyRatO a = true → a.isSome = true := by
  intro a h
  cases a with
  | none => simp [truthyRatO] at h
  | some q => rfl

/-- C7 counterexample: with `temperature` provided but `maxTokens` absent and
a configured client maximum of 2048, the generate-shape body carries
`num_predict = 2048` taken from the client configuration — refuting
"num_predict/temperature included only if explicitly provided". -/
theorem C7_counterexample :
    buildLocalPayload "/api/generate" "m" (some 2048) "p"
        ⟨none, none, some 1⟩ =
      .gen ⟨"m", "p", defaultSystemPrompt, false, some 2048, some 1⟩ ∧
    (⟨none, none, some 1⟩ : ReqOptions).maxTokens = none := by
  constructor
  · simp [buildLocalPayload, truthyRatO, truthyIntO, jsOrInt, jsOrStr]
  · rfl

/-- C7 (amended): the body shape is a pure function of the configured path —
the generate-style constant selects the Ollama-generate shape, the chat-style
constant the Ollama-chat shape, every other path the chat-completions shape.
In the two Ollama shapes, `num_predict` is present exactly when some option
(`temperature` or `maxTokens`) is truthy-provided and a truthy `maxTokens`
exists among the option and the client configuration (the configured maximum
fills in when only `temperature` was provided); `temperature` is present
exactly when truthy-provided.  The chat-completions shape always carries
top-level `max_tokens` (option else configuration) and `temperature` (option
else 0.7). -/
theorem C7_body_shapes :
    ∀ (path model : String) (cMax : Option Int) (prompt : String) (o : ReqOptions),
      shapeTag (buildLocalPayload path model cMax prompt o) =
        (if path = "/api/generate" then 0 else if path = "/api/chat" then 1 else 2) ∧
      (path = "/api/generate" →
        ∃ b, buildLocalPayload path model cMax prompt o = .gen b ∧
          b.stream = false ∧
          b.num_predict.isSome = ((truthyRatO o.temperature || truthyIntO o.maxTokens) &&
            (truthyIntO o.maxTokens || truthyIntO cMax)) ∧
          b.temperature.isSome = ((truthyRatO o.temperature || truthyIntO o.maxTokens) &&
            truthyRatO o.temperature)) ∧
      (path = "/api/chat" →
        ∃ b, buildLocalPayload path model cMax prompt o = .chat b ∧
          b.stream = false ∧
          b.options.isSome = (truthyRatO o.temperature || truthyIntO o.maxTokens) ∧
          (∀ oo, b.options = some oo →
            oo.num_predict.isSome = (truthyIntO o.maxTokens || truthyIntO cMax) ∧
            oo.temperature.isSome = truthyRatO o.temperature)) ∧
      (path ≠ "/api/generate" → path ≠ "/api/chat" →
        ∃ b, buildLocalPayload path model cMax prompt o = .openai b ∧
          b.max_tokens = jsOrInt o.maxTokens cMax ∧
          b.temperature = (match o.temperature with
            | some q => if q ≠ 0 then q else 7 / 10
            | none => 7 / 10)) := by
  intro path model cMax prompt o
  refine ⟨?_, ?_, ?_, ?_⟩
  · by_cases hg : path = "/api/generate"
    · simp [buildLocalPayload, shapeTag, hg]
    · by_cases hc : path = "/api/chat"
      · simp [buildLocalPayload, shapeTag, hg, hc]
      · simp [buildLocalPayload, shapeTag, hg, hc]
  · intro hg
    subst hg
    refine ⟨_, rfl, rfl, ?_, ?_⟩
    · by_cases hA : (truthyRatO o.temperature || truthyIntO o.maxTokens) = true
      · rw [if_pos hA, hA, Bool.true_and]
        by_cases hB : (truthyIntO o.maxTokens || truthyIntO cMax) = true
        · rw [if_pos hB, hB]
          by_cases hm : truthyIntO o.maxTokens = true
          · simp [jsOrInt, hm, isSome_of_truthyIntO _ hm]
          · have hm' : truthyIntO o.maxTokens = false := by simpa using hm
            rw [Bool.or_eq_true] at hB
            rcases hB with hB | hB
            · exact absurd hB hm
            · simp [jsOrInt, hm', isSome_of_truthyIntO _ hB]
        · have hB' : (truthyIntO o.maxTokens || truthyIntO cMax) = false := by simpa using hB
          rw [if_neg hB, hB']
          rfl
      · have hA' : (truthyRatO o.temperature || truthyIntO o.maxTokens) = false := by
          simpa using hA
        rw [if_neg hA, hA', Bool.false_and]
        rfl
    · by_cases hA : (truthyRatO o.temperature || truthyIntO o.maxTokens) = true
      · rw [if_pos hA, hA, Bool.true_and]
        by_cases ht : truthyRatO o.temperature = true
        · rw [if_pos ht, ht]
          exact isSome_of_truthyRatO _ ht
        · have ht' : truthyRatO o.temperature = false := by simpa using ht
          rw [if_neg ht, ht']
          rfl
      · have hA' : (truthyRatO o.temperature || truthyIntO o.maxTokens) = false := by
          simpa using hA
        rw [if_neg hA, hA', Bool.false_and]
        rfl
  · intro hc
    subst hc
    refine ⟨_, rfl, rfl, ?_, ?_⟩
    · by_cases hA : (truthyRatO o.temperature || truthyIntO o.maxTokens) = true
      · rw [if_pos hA, hA]
        rfl
      · have hA' : (truthyRatO o.temperature || truthyIntO o.maxTokens) = false := by
          simpa using hA
        rw [if_neg hA, hA']
        rfl
    · intro oo hoo
      by_cases hA : (truthyRatO o.temperature || truthyIntO o.maxTokens) = true
      · rw [if_pos hA] at hoo
        injection hoo with hoo2
        subst hoo2
        constructor
        · by_cases hB : (truthyIntO o.maxTokens || truthyIntO cMax) = true
          · rw [if_pos hB, hB]
            by_cases hm : truthyIntO o.maxTokens = true
            · simp [jsOrInt, hm, isSome_of_truthyIntO _ hm]
            · have hm' : truthyIntO o.maxTokens = false := by simpa using hm
              rw [Bool.or_eq_true] at hB
              rcases hB with hB | hB
              · exact absurd hB hm
              · simp [jsOrInt, hm', isSome_of_truthyIntO _ hB]
          · have hB' : (truthyIntO o.maxTokens || truthyIntO cMax) = false := by
              simpa using hB
            rw [if_neg hB, hB']
            rfl
        · by_cases ht : truthyRatO o.temperature = true
          · rw [if_pos ht, ht]
            exact isSome_of_truthyRatO _ ht
          · have ht' : truthyRatO o.temperature = false := by simpa using ht
            rw [if_neg ht, ht']
            rfl
      · rw [if_neg hA] at hoo
        exact absurd hoo (by simp)
  · intro hne1 hne2
    unfold buildLocalPayload
    rw [if_neg hne1, if_neg hne2]
    exact ⟨_, rfl, rfl, rfl⟩

/-- C7 witness: the chat-shape characterization applied at a concrete
configuration. -/
theorem C7_witness :
    ∃ b, buildLocalPayload "/api/chat" "m" (some 2048) "p" ⟨none, none, none⟩ = .chat b ∧
      b.stream = false ∧
      b.options.isSome = (truthyRatO none || truthyIntO none) ∧
      (∀ oo, b.options = some oo →
        oo.num_predict.isSome = (truthyIntO none || truthyIntO (some 2048)) ∧
        oo.temperature.isSome = truthyRatO none) :=
  (C7_body_shapes "/api/chat" "m" (some 2048) "p" ⟨none, none, none⟩).2.2.1 rfl

/-- C8: with remote mode selected (`useLocalLLM = false`) and no truthy API
key configured, `makeRequest` resolves to the fail-fast configuration error —
no outbound POST is ever constructed. -/
theorem C8_fail_fast :
    ∀ (localLLMPath apiHostname apiVersion : String) (apiKey : Option String)
      (model : String) (cMax : Option Int) (prompt : String) (o : ReqOptions),
      truthyStrO apiKey = false →
      makeRequest false localLLMPath apiHostname apiVersion apiKey model cMax prompt o =
        .remote (.configError apiKeyErrMsg) := by
  intro localLLMPath apiHostname apiVersion apiKey model cMax prompt o h
  simp [makeRequest, makeSebGuruRequest, h]

/-- C8 witness: the fail-fast error with no API key configured. -/
theorem C8_witness :
    makeRequest false "/api/chat" "api.example.com" "v1" none "m" none "p"
        ⟨none, none, none⟩ =
      .remote (.configError apiKeyErrMsg) :=
  C8_fail_fast "/api/chat" "api.example.com" "v1" none "m" none "p" ⟨none, none, none⟩ rfl
